import Mathlib

/-!
# NFT marketplace engine — shallow embedding and verification

Shallow embedding of the two Solidity marketplace contracts of the
repository:

* `Base` models `contracts/NFTMarketplace.sol` (baseline variant: a
  `Listing` record with an explicit `isActive` boolean);
* `Opt` models `contracts/NFTMarketplaceOptimized.sol` (gas-optimized
  variant: `uint96` price, listing activity represented as `price > 0`,
  listings deleted instead of flagged).

Modelling conventions:

* Addresses and token ids are `Nat`; address `0` is `address(0)`.
  Amounts are `Nat` (ETH quantities are far below `2^96`, so neither
  variant's arithmetic can overflow on reachable values; the optimized
  variant's explicit `uint96` bound `price <= type(uint96).max` is kept
  as an explicit check).
* Each external function is translated to a function producing the
  ordered list of primitive effects (`Action`) it performs — storage
  writes, outbound ETH transfers (`send`, the external calls), and
  emitted events — or a typed error.  The final state is the left fold
  of `applyAction` over that trace, so the trace is the single source
  of truth for both the effects and their order (the order is what the
  checks-effects-interactions claims are about).
* A failing function reverts: EVM revert semantics discard every
  intermediate write, so `exec` returns the pre-state unchanged on
  `.error`.  Error names follow the specification's taxonomy; each
  `require` in the source is mapped to its spec-level error
  (`"Not the owner"` ↦ `NotOwner`, `"Price must be greater than 0"` and
  `"Price too high"` ↦ `InvalidPrice`, `"Insufficient listing fee"` ↦
  `InsufficientFee`, `"Already listed"` ↦ `AlreadyListed`,
  `"NFT not listed"` / `"Not listed"` ↦ `NotListed`,
  `"Insufficient payment"` ↦ `InsufficientPayment`,
  `"No funds to withdraw"` ↦ `NothingToWithdraw`, `onlyOwner` ↦
  `Unauthorized`, `"Fee too high"` ↦ `FeeTooHigh`, and every rejection
  by the ERC-721 ownership registry ↦ `TransferFailed`).
* The ERC-721 core (OpenZeppelin, an external library; the spec's
  "Ownership Registry" collaborator) is modelled at the spec's level of
  abstraction: a total map token id ↦ owner (`0` = nonexistent), with
  `_transfer`'s checks (`to ≠ 0`, token exists, `from` is the current
  owner) and `transferFrom`'s caller authorization (caller must be the
  current owner; approval delegation is registry-internal and orthogonal
  to every claim).  The marketplace's own `_update` override — the
  transfer hook that invalidates stale listings — is translated
  faithfully and runs on every ownership change.
* `pendingWithdrawals` is an association list with default `0`,
  realizing the Solidity mapping while keeping the sum of all escrow
  balances a computable fold.
-/

/-- Pointwise update of a total map, as Solidity mapping assignment. -/
def setMap {α : Type} (f : Nat → α) (k : Nat) (v : α) : Nat → α :=
  fun x => if x = k then v else f x

theorem setMap_same {α : Type} (f : Nat → α) (k : Nat) (v : α) :
    setMap f k v k = v := by simp [setMap]

theorem setMap_other {α : Type} (f : Nat → α) (k : Nat) (v : α)
    (x : Nat) (hx : x ≠ k) : setMap f k v x = f x := by
  simp [setMap, hx]

/-- `mapping(address => uint256)` as an association list with default 0:
keeps every balance readable and the sum of all balances computable. -/
def Bal : Type := List (Nat × Nat)

def Bal.get : Bal → Nat → Nat
  | [], _ => 0
  | (k, v) :: rest, a => if a = k then v else Bal.get rest a

def Bal.set : Bal → Nat → Nat → Bal
  | [], a, v => [(a, v)]
  | (k, w) :: rest, a, v =>
      if a = k then (k, v) :: rest else (k, w) :: Bal.set rest a v

/-- Sum of all escrow balances. -/
def Bal.total : Bal → Nat
  | [] => 0
  | (_, v) :: rest => v + Bal.total rest

theorem Bal.get_set_same (m : Bal) (a v : Nat) :
    Bal.get (Bal.set m a v) a = v := by
  induction m with
  | nil => simp [Bal.set, Bal.get]
  | cons p rest ih =>
      by_cases h : a = p.1
      · simp [Bal.set, Bal.get, h]
      · simp [Bal.set, Bal.get, h, ih]

theorem Bal.get_set_other (m : Bal) (a v b : Nat) (hb : b ≠ a) :
    Bal.get (Bal.set m a v) b = Bal.get m b := by
  induction m with
  | nil => simp [Bal.set, Bal.get, hb]
  | cons p rest ih =>
      by_cases h : a = p.1
      · subst h
        simp [Bal.set, Bal.get, hb]
      · by_cases h2 : b = p.1
        · simp [Bal.set, Bal.get, h, h2]
        · simp [Bal.set, Bal.get, h, h2, ih]

/-- Writing one balance changes the total by the difference with the old
value (stated addition-only, so no truncated subtraction is needed). -/
theorem Bal.total_set (m : Bal) (a v : Nat) :
    Bal.total (Bal.set m a v) + Bal.get m a = Bal.total m + v := by
  induction m with
  | nil => simp [Bal.set, Bal.get, Bal.total]
  | cons p rest ih =>
      by_cases h : a = p.1
      · simp [Bal.set, Bal.get, Bal.total, h]
        omega
      · simp [Bal.set, Bal.get, Bal.total, h]
        omega

/-- Marketplace events (`event` declarations shared verbatim by the two
contracts). -/
inductive Event where
  | NFTListed (tokenId seller price : Nat)
  | NFTSold (tokenId buyer seller price : Nat)
  | ListingCancelled (tokenId : Nat)
  | ListingFeeUpdated (newFee : Nat)
deriving Repr, DecidableEq

/-- Spec-level error taxonomy; each `require` / modifier / registry
rejection in the source maps to one constructor (see the header). -/
inductive Err where
  | NotOwner
  | InvalidPrice
  | InsufficientFee
  | AlreadyListed
  | NotListed
  | InsufficientPayment
  | NothingToWithdraw
  | Unauthorized
  | FeeTooHigh
  | TransferFailed
deriving Repr, DecidableEq

/-- External calls into a marketplace contract.  `msg.sender` is the first
`Nat` of each constructor; `msgValue` is `msg.value`. -/
inductive Op where
  | mint (sender : Nat)
  | list (sender tokenId price msgValue : Nat)
  | buy (sender tokenId msgValue : Nat)
  | cancel (sender tokenId : Nat)
  | withdraw (sender : Nat)
  | setFee (sender newFee : Nat)
  | transfer (sender fromA toA tokenId : Nat)
deriving Repr, DecidableEq

namespace Base

/-- `struct Listing { uint256 price; address seller; bool isActive; }` -/
structure Listing where
  price : Nat
  seller : Nat
  isActive : Bool
deriving Repr, DecidableEq

/-- Default (zero-initialized) listing, the mapping's default value. -/
def Listing.empty : Listing := ⟨0, 0, false⟩

/-- One primitive effect of the baseline contract, in execution order:
storage writes, outbound ETH transfers (`send` — the external calls), and
event emissions. -/
inductive Action where
  | setListing (tokenId : Nat) (l : Listing)
  | setOwner (tokenId : Nat) (owner : Nat)
  | setEscrow (addr : Nat) (amount : Nat)
  | setFeeVal (fee : Nat)
  | bumpCounter
  | send (dest : Nat) (amount : Nat)
  | emit (e : Event)
deriving Repr, DecidableEq

/-- Storage of `NFTMarketplace.sol` plus the ERC-721 owner map. -/
structure MarketState where
  listings : Nat → Listing
  pendingWithdrawals : Bal
  listingFee : Nat
  owners : Nat → Nat
  nextTokenIdCounter : Nat
  contractOwner : Nat

/-- Effect of one primitive action on storage (`send` and `emit` leave
storage untouched: value and events leave the contract). -/
def applyAction (s : MarketState) : Action → MarketState
  | .setListing t l => { s with listings := setMap s.listings t l }
  | .setOwner t o => { s with owners := setMap s.owners t o }
  | .setEscrow a v =>
      { s with pendingWithdrawals := Bal.set s.pendingWithdrawals a v }
  | .setFeeVal f => { s with listingFee := f }
  | .bumpCounter => { s with nextTokenIdCounter := s.nextTokenIdCounter + 1 }
  | .send _ _ => s
  | .emit _ => s

/-- Left fold of a whole effect trace. -/
def applyTrace (s : MarketState) (tr : List Action) : MarketState :=
  tr.foldl applyAction s

theorem applyTrace_append (s : MarketState) (t1 t2 : List Action) :
    applyTrace s (t1 ++ t2) = applyTrace (applyTrace s t1) t2 := by
  simp [applyTrace, List.foldl_append]

/-- `require(ownerOf(tokenId) == msg.sender)`: `ownerOf` itself reverts on
a nonexistent token (owner `0`), and both rejections are the spec's
`NotOwner`. -/
def ownerCheck (s : MarketState) (tokenId sender : Nat) : Prop :=
  s.owners tokenId ≠ 0 ∧ s.owners tokenId = sender

instance (s : MarketState) (t a : Nat) : Decidable (ownerCheck s t a) := by
  unfold ownerCheck; infer_instance

/-- The `_update` override's listing-invalidation hook: on any ownership
change of an existing token with an active listing, deactivate the
listing (only the flag is written; price and seller stay, as in
`listings[tokenId].isActive = false`). -/
def updateHook (s : MarketState) (tokenId : Nat) : List Action :=
  if s.owners tokenId ≠ 0 ∧ (s.listings tokenId).isActive then
    [Action.setListing tokenId
      ⟨(s.listings tokenId).price, (s.listings tokenId).seller, false⟩]
  else []

/-- ERC-721 `_transfer(from, to, tokenId)` as run through the overridden
`_update`: rejects `to = 0`, a nonexistent token, and a `from` that is
not the current owner; on success the hook fires, then the owner map is
written. -/
def erc721Transfer (s : MarketState) (fromA toA tokenId : Nat) :
    Except Err (List Action) :=
  if toA = 0 then .error .TransferFailed
  else if s.owners tokenId = 0 then .error .TransferFailed
  else if s.owners tokenId ≠ fromA then .error .TransferFailed
  else .ok (updateHook s tokenId ++ [Action.setOwner tokenId toA])

/-- `mintNFT`: assigns the next counter value as token id and mints it to
the caller (the registry rejects minting to `address(0)` or over an
existing token). -/
def mintNFT (s : MarketState) (sender : Nat) : Except Err (List Action) :=
  if sender = 0 then .error .TransferFailed
  else if s.owners s.nextTokenIdCounter ≠ 0 then .error .TransferFailed
  else .ok [Action.bumpCounter, Action.setOwner s.nextTokenIdCounter sender]

/-- `listNFT(tokenId, price)` (lines 36–57): owner / positive-price /
fee / not-already-listed checks, then the listing write, the fee
transfer to the contract owner, the overpayment refund, and the event. -/
def listNFT (s : MarketState) (sender tokenId price msgValue : Nat) :
    Except Err (List Action) :=
  if ¬ ownerCheck s tokenId sender then .error .NotOwner
  else if price = 0 then .error .InvalidPrice
  else if msgValue < s.listingFee then .error .InsufficientFee
  else if (s.listings tokenId).isActive then .error .AlreadyListed
  else .ok
    ([Action.setListing tokenId ⟨price, sender, true⟩,
      Action.send s.contractOwner s.listingFee]
     ++ (if s.listingFee < msgValue then
           [Action.send sender (msgValue - s.listingFee)]
         else [])
     ++ [Action.emit (.NFTListed tokenId sender price)])

/-- `buyNFT(tokenId)` (lines 59–79): listing / payment checks, then in
strict order: deactivate the listing, ERC-721 transfer to the buyer
(through the overridden `_update`, evaluated in the state where the
listing is already inactive), escrow credit to the seller, overpayment
refund, sale event. -/
def buyNFT (s : MarketState) (sender tokenId msgValue : Nat) :
    Except Err (List Action) :=
  let listing := s.listings tokenId
  if ¬ listing.isActive then .error .NotListed
  else if msgValue < listing.price then .error .InsufficientPayment
  else
    let a1 := Action.setListing tokenId ⟨listing.price, listing.seller, false⟩
    let s1 := applyAction s a1
    match erc721Transfer s1 listing.seller sender tokenId with
    | .error e => .error e
    | .ok tacts =>
        let s2 := applyTrace s1 tacts
        .ok ([a1] ++ tacts
          ++ [Action.setEscrow listing.seller
                (Bal.get s2.pendingWithdrawals listing.seller + listing.price)]
          ++ (if listing.price < msgValue then
                [Action.send sender (msgValue - listing.price)]
              else [])
          ++ [Action.emit (.NFTSold tokenId sender listing.seller listing.price)])

/-- `cancelListing(tokenId)` (lines 81–87). -/
def cancelListing (s : MarketState) (sender tokenId : Nat) :
    Except Err (List Action) :=
  if ¬ ownerCheck s tokenId sender then .error .NotOwner
  else if ¬ (s.listings tokenId).isActive then .error .NotListed
  else .ok
    [Action.setListing tokenId
      ⟨(s.listings tokenId).price, (s.listings tokenId).seller, false⟩,
     Action.emit (.ListingCancelled tokenId)]

/-- `withdrawFunds()` (lines 89–95): the balance is zeroed before the one
outbound transfer of exactly the prior balance. -/
def withdrawFunds (s : MarketState) (sender : Nat) :
    Except Err (List Action) :=
  let amount := Bal.get s.pendingWithdrawals sender
  if amount = 0 then .error .NothingToWithdraw
  else .ok [Action.setEscrow sender 0, Action.send sender amount]

/-- `setListingFee(newFee)` (lines 105–108), gated by `onlyOwner`. -/
def setListingFee (s : MarketState) (sender newFee : Nat) :
    Except Err (List Action) :=
  if sender ≠ s.contractOwner then .error .Unauthorized
  else .ok [Action.setFeeVal newFee, Action.emit (.ListingFeeUpdated newFee)]

/-- `transferFrom`-style direct transfer outside the marketplace: the
registry authorizes the current owner as caller, then runs the same
`_update` path (hook included). -/
def directTransfer (s : MarketState) (sender fromA toA tokenId : Nat) :
    Except Err (List Action) :=
  if toA = 0 then .error .TransferFailed
  else if s.owners tokenId = 0 then .error .TransferFailed
  else if sender ≠ s.owners tokenId then .error .TransferFailed
  else if s.owners tokenId ≠ fromA then .error .TransferFailed
  else .ok (updateHook s tokenId ++ [Action.setOwner tokenId toA])

/-- Dispatch of one external call to its effect trace. -/
def execOp (s : MarketState) : Op → Except Err (List Action)
  | .mint sender => mintNFT s sender
  | .list sender tokenId price msgValue => listNFT s sender tokenId price msgValue
  | .buy sender tokenId msgValue => buyNFT s sender tokenId msgValue
  | .cancel sender tokenId => cancelListing s sender tokenId
  | .withdraw sender => withdrawFunds s sender
  | .setFee sender newFee => setListingFee s sender newFee
  | .transfer sender fromA toA tokenId => directTransfer s sender fromA toA tokenId

/-- One transaction: on success the trace is applied, on failure the EVM
reverts and the state is the pre-state. -/
def exec (s : MarketState) (op : Op) : MarketState × Except Err (List Action) :=
  match execOp s op with
  | .ok tr => (applyTrace s tr, .ok tr)
  | .error e => (s, .error e)

/-- Run a sequence of transactions. -/
def run (s : MarketState) : List Op → MarketState
  | [] => s
  | op :: ops => run (exec s op).1 ops

/-- Freshly deployed contract: no listings, no owners, empty escrow,
`listingFee = 0.01 ether`, counter 0, `Ownable(msg.sender)`. -/
def genesis (deployer : Nat) : MarketState where
  listings := fun _ => Listing.empty
  pendingWithdrawals := []
  listingFee := 10000000000000000
  owners := fun _ => 0
  nextTokenIdCounter := 0
  contractOwner := deployer

end Base

namespace Opt

/-- `type(uint96).max`, the optimized variant's price/fee bound. -/
def uint96max : Nat := 79228162514264337593543950335

/-- Packed `struct Listing { uint96 price; address seller; }`; the
`isActive` flag is gone, activity is `price > 0`. -/
structure Listing where
  price : Nat
  seller : Nat
deriving Repr, DecidableEq

/-- Default (zero-initialized) listing; also the result of
`delete listings[tokenId]`. -/
def Listing.empty : Listing := ⟨0, 0⟩

/-- One primitive effect of the optimized contract. -/
inductive Action where
  | setListing (tokenId : Nat) (l : Listing)
  | setOwner (tokenId : Nat) (owner : Nat)
  | setEscrow (addr : Nat) (amount : Nat)
  | setFeeVal (fee : Nat)
  | bumpCounter
  | send (dest : Nat) (amount : Nat)
  | emit (e : Event)
deriving Repr, DecidableEq

/-- Storage of `NFTMarketplaceOptimized.sol` plus the ERC-721 owner map. -/
structure MarketState where
  listings : Nat → Listing
  pendingWithdrawals : Bal
  listingFee : Nat
  owners : Nat → Nat
  nextTokenIdCounter : Nat
  contractOwner : Nat

/-- Effect of one primitive action on storage. -/
def applyAction (s : MarketState) : Action → MarketState
  | .setListing t l => { s with listings := setMap s.listings t l }
  | .setOwner t o => { s with owners := setMap s.owners t o }
  | .setEscrow a v =>
      { s with pendingWithdrawals := Bal.set s.pendingWithdrawals a v }
  | .setFeeVal f => { s with listingFee := f }
  | .bumpCounter => { s with nextTokenIdCounter := s.nextTokenIdCounter + 1 }
  | .send _ _ => s
  | .emit _ => s

/-- Left fold of a whole effect trace. -/
def applyTrace (s : MarketState) (tr : List Action) : MarketState :=
  tr.foldl applyAction s

theorem opt_applyTrace_append (s : MarketState) (t1 t2 : List Action) :
    applyTrace s (t1 ++ t2) = applyTrace (applyTrace s t1) t2 := by
  simp [applyTrace, List.foldl_append]

/-- `require(ownerOf(tokenId) == msg.sender)` (see `Base.ownerCheck`). -/
def ownerCheck (s : MarketState) (tokenId sender : Nat) : Prop :=
  s.owners tokenId ≠ 0 ∧ s.owners tokenId = sender

instance (s : MarketState) (t a : Nat) : Decidable (ownerCheck s t a) := by
  unfold ownerCheck; infer_instance

/-- The optimized `_update` override's hook (lines 164–177): on any
ownership change of an existing token, a listing with `price > 0` is
deleted outright. -/
def updateHook (s : MarketState) (tokenId : Nat) : List Action :=
  if s.owners tokenId ≠ 0 ∧ (s.listings tokenId).price ≠ 0 then
    [Action.setListing tokenId Listing.empty]
  else []

/-- ERC-721 `_transfer` through the optimized `_update` override. -/
def erc721Transfer (s : MarketState) (fromA toA tokenId : Nat) :
    Except Err (List Action) :=
  if toA = 0 then .error .TransferFailed
  else if s.owners tokenId = 0 then .error .TransferFailed
  else if s.owners tokenId ≠ fromA then .error .TransferFailed
  else .ok (updateHook s tokenId ++ [Action.setOwner tokenId toA])

/-- `mintNFT` (lines 42–51); the unchecked counter increment cannot wrap
on reachable values, so it is the same increment. -/
def mintNFT (s : MarketState) (sender : Nat) : Except Err (List Action) :=
  if sender = 0 then .error .TransferFailed
  else if s.owners s.nextTokenIdCounter ≠ 0 then .error .TransferFailed
  else .ok [Action.bumpCounter, Action.setOwner s.nextTokenIdCounter sender]

/-- `listNFT(tokenId, price)` (lines 53–85): note the changed check order
(price, price bound, fee, owner, not-listed) and the `price == 0`
activity test. -/
def listNFT (s : MarketState) (sender tokenId price msgValue : Nat) :
    Except Err (List Action) :=
  if price = 0 then .error .InvalidPrice
  else if uint96max < price then .error .InvalidPrice
  else if msgValue < s.listingFee then .error .InsufficientFee
  else if ¬ ownerCheck s tokenId sender then .error .NotOwner
  else if (s.listings tokenId).price ≠ 0 then .error .AlreadyListed
  else .ok
    ([Action.setListing tokenId ⟨price, sender⟩,
      Action.send s.contractOwner s.listingFee]
     ++ (if 0 < msgValue - s.listingFee then
           [Action.send sender (msgValue - s.listingFee)]
         else [])
     ++ [Action.emit (.NFTListed tokenId sender price)])

/-- `buyNFT(tokenId)` (lines 87–117): listing deleted (not flagged)
before the ERC-721 transfer, escrow credit, refund, sale event. -/
def buyNFT (s : MarketState) (sender tokenId msgValue : Nat) :
    Except Err (List Action) :=
  let listing := s.listings tokenId
  if listing.price = 0 then .error .NotListed
  else if msgValue < listing.price then .error .InsufficientPayment
  else
    let a1 := Action.setListing tokenId Listing.empty
    let s1 := applyAction s a1
    match erc721Transfer s1 listing.seller sender tokenId with
    | .error e => .error e
    | .ok tacts =>
        let s2 := applyTrace s1 tacts
        .ok ([a1] ++ tacts
          ++ [Action.setEscrow listing.seller
                (Bal.get s2.pendingWithdrawals listing.seller + listing.price)]
          ++ (if 0 < msgValue - listing.price then
                [Action.send sender (msgValue - listing.price)]
              else [])
          ++ [Action.emit (.NFTSold tokenId sender listing.seller listing.price)])

/-- `cancelListing(tokenId)` (lines 119–127). -/
def cancelListing (s : MarketState) (sender tokenId : Nat) :
    Except Err (List Action) :=
  if ¬ ownerCheck s tokenId sender then .error .NotOwner
  else if (s.listings tokenId).price = 0 then .error .NotListed
  else .ok
    [Action.setListing tokenId Listing.empty,
     Action.emit (.ListingCancelled tokenId)]

/-- `withdrawFunds()` (lines 129–138), identical to the baseline. -/
def withdrawFunds (s : MarketState) (sender : Nat) :
    Except Err (List Action) :=
  let amount := Bal.get s.pendingWithdrawals sender
  if amount = 0 then .error .NothingToWithdraw
  else .ok [Action.setEscrow sender 0, Action.send sender amount]

/-- `setListingFee(newFee)` (lines 149–153): `onlyOwner`, then the
`uint96` bound check. -/
def setListingFee (s : MarketState) (sender newFee : Nat) :
    Except Err (List Action) :=
  if sender ≠ s.contractOwner then .error .Unauthorized
  else if uint96max < newFee then .error .FeeTooHigh
  else .ok [Action.setFeeVal newFee, Action.emit (.ListingFeeUpdated newFee)]

/-- Direct ERC-721 transfer outside the marketplace (same registry
model as `Base.directTransfer`). -/
def directTransfer (s : MarketState) (sender fromA toA tokenId : Nat) :
    Except Err (List Action) :=
  if toA = 0 then .error .TransferFailed
  else if s.owners tokenId = 0 then .error .TransferFailed
  else if sender ≠ s.owners tokenId then .error .TransferFailed
  else if s.owners tokenId ≠ fromA then .error .TransferFailed
  else .ok (updateHook s tokenId ++ [Action.setOwner tokenId toA])

/-- Dispatch of one external call to its effect trace. -/
def execOp (s : MarketState) : Op → Except Err (List Action)
  | .mint sender => mintNFT s sender
  | .list sender tokenId price msgValue => listNFT s sender tokenId price msgValue
  | .buy sender tokenId msgValue => buyNFT s sender tokenId msgValue
  | .cancel sender tokenId => cancelListing s sender tokenId
  | .withdraw sender => withdrawFunds s sender
  | .setFee sender newFee => setListingFee s sender newFee
  | .transfer sender fromA toA tokenId => directTransfer s sender fromA toA tokenId

/-- One transaction with revert-on-failure semantics. -/
def exec (s : MarketState) (op : Op) : MarketState × Except Err (List Action) :=
  match execOp s op with
  | .ok tr => (applyTrace s tr, .ok tr)
  | .error e => (s, .error e)

/-- Run a sequence of transactions. -/
def run (s : MarketState) : List Op → MarketState
  | [] => s
  | op :: ops => run (exec s op).1 ops

/-- Freshly deployed optimized contract. -/
def genesis (deployer : Nat) : MarketState where
  listings := fun _ => Listing.empty
  pendingWithdrawals := []
  listingFee := 10000000000000000
  owners := fun _ => 0
  nextTokenIdCounter := 0
  contractOwner := deployer

end Opt

/-- `true` exactly on a non-reverting result. -/
def okb {α : Type} : Except Err α → Bool
  | .ok _ => true
  | .error _ => false

theorem okb_ok {α : Type} {r : Except Err α} (h : okb r = true) :
    ∃ x, r = .ok x := by
  cases r with
  | ok x => exact ⟨x, rfl⟩
  | error e => simp [okb] at h

theorem okb_err {α : Type} {r : Except Err α} (h : okb r = false) :
    ∃ e, r = .error e := by
  cases r with
  | ok x => simp [okb] at h
  | error e => exact ⟨e, rfl⟩

namespace Base

theorem exec_of_ok {s : MarketState} {op : Op} {tr : List Action}
    (h : execOp s op = .ok tr) : exec s op = (applyTrace s tr, .ok tr) := by
  simp [exec, h]

theorem exec_of_err {s : MarketState} {op : Op} {e : Err}
    (h : execOp s op = .error e) : exec s op = (s, .error e) := by
  simp [exec, h]

/-- A reverted transaction leaves the state untouched (EVM revert). -/
theorem exec_err_state {s : MarketState} {op : Op} {e : Err}
    (h : (exec s op).2 = .error e) : (exec s op).1 = s := by
  unfold exec at h ⊢
  cases hr : execOp s op with
  | ok tr => simp [hr] at h
  | error e2 => simp [hr]

/-- Actions that never write the listing slot `t` leave it unchanged. -/
theorem listings_stable (t : Nat) :
    ∀ (l : List Action) (s : MarketState),
      (∀ a ∈ l, ∀ li, a ≠ Action.setListing t li) →
      (applyTrace s l).listings t = s.listings t := by
  intro l
  induction l with
  | nil => intro s _; rfl
  | cons a rest ih =>
      intro s h
      have ha := h a (by simp)
      have hrest : ∀ b ∈ rest, ∀ li, b ≠ Action.setListing t li := by
        intro b hb; exact h b (by simp [hb])
      show (applyTrace (applyAction s a) rest).listings t = s.listings t
      rw [ih (applyAction s a) hrest]
      cases a with
      | setListing t2 li =>
          have ht : t2 ≠ t := fun hc => ha li (by rw [hc])
          simp [applyAction, setMap, Ne.symm ht]
      | setOwner t2 o => simp [applyAction]
      | setEscrow a2 v => simp [applyAction]
      | setFeeVal f => simp [applyAction]
      | bumpCounter => simp [applyAction]
      | send d v => simp [applyAction]
      | emit e => simp [applyAction]

end Base

namespace Base

/-! ### Per-operation characterizations (baseline) -/

theorem withdraw_err (s : MarketState) (a : Nat)
    (h : Bal.get s.pendingWithdrawals a = 0) :
    execOp s (Op.withdraw a) = .error .NothingToWithdraw := by
  simp [execOp, withdrawFunds, h]

theorem withdraw_ok (s : MarketState) (a : Nat)
    (h : Bal.get s.pendingWithdrawals a ≠ 0) :
    execOp s (Op.withdraw a) =
      .ok [Action.setEscrow a 0, Action.send a (Bal.get s.pendingWithdrawals a)] := by
  simp [execOp, withdrawFunds, h]

theorem withdraw_post (s : MarketState) (a : Nat)
    (h : Bal.get s.pendingWithdrawals a ≠ 0) :
    (exec s (Op.withdraw a)).1 =
      { s with pendingWithdrawals := Bal.set s.pendingWithdrawals a 0 } := by
  simp [exec, withdraw_ok s a h, applyTrace, applyAction]

theorem setFee_err (s : MarketState) (sender f : Nat)
    (h : sender ≠ s.contractOwner) :
    execOp s (Op.setFee sender f) = .error .Unauthorized := by
  simp [execOp, setListingFee, h]

theorem setFee_ok (s : MarketState) (sender f : Nat)
    (h : sender = s.contractOwner) :
    execOp s (Op.setFee sender f) =
      .ok [Action.setFeeVal f, Action.emit (.ListingFeeUpdated f)] := by
  simp [execOp, setListingFee, h]

theorem setFee_post (s : MarketState) (sender f : Nat)
    (h : sender = s.contractOwner) :
    (exec s (Op.setFee sender f)).1 = { s with listingFee := f } := by
  simp [exec, setFee_ok s sender f h, applyTrace, applyAction]

theorem mint_ok (s : MarketState) (sender : Nat)
    (hs : sender ≠ 0) (hfresh : s.owners s.nextTokenIdCounter = 0) :
    execOp s (Op.mint sender) =
      .ok [Action.bumpCounter, Action.setOwner s.nextTokenIdCounter sender] := by
  simp [execOp, mintNFT, hs, hfresh]

theorem mint_post (s : MarketState) (sender : Nat)
    (hs : sender ≠ 0) (hfresh : s.owners s.nextTokenIdCounter = 0) :
    (exec s (Op.mint sender)).1 =
      { s with owners := setMap s.owners s.nextTokenIdCounter sender,
               nextTokenIdCounter := s.nextTokenIdCounter + 1 } := by
  simp [exec, mint_ok s sender hs hfresh, applyTrace, applyAction]

theorem list_err_notOwner (s : MarketState) (sender t price pay : Nat)
    (h : ¬ ownerCheck s t sender) :
    execOp s (Op.list sender t price pay) = .error .NotOwner := by
  simp [execOp, listNFT, h]

theorem list_err_price (s : MarketState) (sender t pay : Nat)
    (h : ownerCheck s t sender) :
    execOp s (Op.list sender t 0 pay) = .error .InvalidPrice := by
  simp [execOp, listNFT, h]

theorem list_err_fee (s : MarketState) (sender t price pay : Nat)
    (h : ownerCheck s t sender) (hp : price ≠ 0) (hf : pay < s.listingFee) :
    execOp s (Op.list sender t price pay) = .error .InsufficientFee := by
  simp [execOp, listNFT, h, hp, hf]

theorem list_err_listed (s : MarketState) (sender t price pay : Nat)
    (h : ownerCheck s t sender) (hp : price ≠ 0) (hf : s.listingFee ≤ pay)
    (ha : (s.listings t).isActive = true) :
    execOp s (Op.list sender t price pay) = .error .AlreadyListed := by
  simp [execOp, listNFT, h, hp, Nat.not_lt.mpr hf, ha]

theorem list_ok (s : MarketState) (sender t price pay : Nat)
    (h : ownerCheck s t sender) (hp : price ≠ 0) (hf : s.listingFee ≤ pay)
    (ha : (s.listings t).isActive = false) :
    execOp s (Op.list sender t price pay) =
      .ok ([Action.setListing t ⟨price, sender, true⟩,
            Action.send s.contractOwner s.listingFee]
           ++ (if s.listingFee < pay then
                 [Action.send sender (pay - s.listingFee)] else [])
           ++ [Action.emit (.NFTListed t sender price)]) := by
  simp [execOp, listNFT, h, hp, Nat.not_lt.mpr hf, ha]

theorem list_post (s : MarketState) (sender t price pay : Nat)
    (h : ownerCheck s t sender) (hp : price ≠ 0) (hf : s.listingFee ≤ pay)
    (ha : (s.listings t).isActive = false) :
    (exec s (Op.list sender t price pay)).1 =
      { s with listings := setMap s.listings t ⟨price, sender, true⟩ } := by
  by_cases hr : s.listingFee < pay <;>
    simp [exec, list_ok s sender t price pay h hp hf ha, hr,
      applyTrace, applyAction]

theorem cancel_err_notOwner (s : MarketState) (sender t : Nat)
    (h : ¬ ownerCheck s t sender) :
    execOp s (Op.cancel sender t) = .error .NotOwner := by
  simp [execOp, cancelListing, h]

theorem cancel_err_notListed (s : MarketState) (sender t : Nat)
    (h : ownerCheck s t sender) (ha : (s.listings t).isActive = false) :
    execOp s (Op.cancel sender t) = .error .NotListed := by
  simp [execOp, cancelListing, h, ha]

theorem cancel_ok (s : MarketState) (sender t : Nat)
    (h : ownerCheck s t sender) (ha : (s.listings t).isActive = true) :
    execOp s (Op.cancel sender t) =
      .ok [Action.setListing t
             ⟨(s.listings t).price, (s.listings t).seller, false⟩,
           Action.emit (.ListingCancelled t)] := by
  simp [execOp, cancelListing, h, ha]

theorem cancel_post (s : MarketState) (sender t : Nat)
    (h : ownerCheck s t sender) (ha : (s.listings t).isActive = true) :
    (exec s (Op.cancel sender t)).1 =
      { s with listings := setMap s.listings t
                 ⟨(s.listings t).price, (s.listings t).seller, false⟩ } := by
  simp [exec, cancel_ok s sender t h ha, applyTrace, applyAction]

theorem buy_err_notListed (s : MarketState) (sender t pay : Nat)
    (h : (s.listings t).isActive = false) :
    execOp s (Op.buy sender t pay) = .error .NotListed := by
  simp [execOp, buyNFT, h]

theorem buy_err_payment (s : MarketState) (sender t pay : Nat)
    (h : (s.listings t).isActive = true) (hp : pay < (s.listings t).price) :
    execOp s (Op.buy sender t pay) = .error .InsufficientPayment := by
  simp [execOp, buyNFT, h, hp]

end Base

namespace Base

theorem buy_err_transfer (s : MarketState) (sender t pay : Nat)
    (h : (s.listings t).isActive = true) (hp : (s.listings t).price ≤ pay)
    (hfail : sender = 0 ∨ s.owners t = 0 ∨ s.owners t ≠ (s.listings t).seller) :
    execOp s (Op.buy sender t pay) = .error .TransferFailed := by
  have hnp : ¬ pay < (s.listings t).price := Nat.not_lt.mpr hp
  rcases hfail with h0 | h0 | h0
  · simp [execOp, buyNFT, erc721Transfer, h, hnp, h0]
  · simp [execOp, buyNFT, erc721Transfer, h, hnp, applyAction, h0]
  · by_cases hs : sender = 0
    · simp [execOp, buyNFT, erc721Transfer, h, hnp, hs]
    · by_cases he : s.owners t = 0
      · simp [execOp, buyNFT, erc721Transfer, h, hnp, applyAction, hs, he]
      · simp [execOp, buyNFT, erc721Transfer, h, hnp, applyAction, hs, he, h0]

theorem buy_ok (s : MarketState) (sender t pay : Nat)
    (hact : (s.listings t).isActive = true)
    (hpay : (s.listings t).price ≤ pay)
    (hs : sender ≠ 0)
    (hex : s.owners t ≠ 0)
    (hsell : s.owners t = (s.listings t).seller) :
    execOp s (Op.buy sender t pay) =
      .ok ([Action.setListing t
              ⟨(s.listings t).price, (s.listings t).seller, false⟩,
            Action.setOwner t sender,
            Action.setEscrow (s.listings t).seller
              (Bal.get s.pendingWithdrawals (s.listings t).seller
                + (s.listings t).price)]
           ++ (if (s.listings t).price < pay then
                 [Action.send sender (pay - (s.listings t).price)] else [])
           ++ [Action.emit
                 (.NFTSold t sender (s.listings t).seller (s.listings t).price)]) := by
  have hnp : ¬ pay < (s.listings t).price := Nat.not_lt.mpr hpay
  have hsell2 : (s.listings t).seller ≠ 0 := hsell ▸ hex
  simp [execOp, buyNFT, erc721Transfer, updateHook, applyAction, applyTrace,
    hact, hnp, hs, hsell, hsell2, setMap_same]

theorem buy_post (s : MarketState) (sender t pay : Nat)
    (hact : (s.listings t).isActive = true)
    (hpay : (s.listings t).price ≤ pay)
    (hs : sender ≠ 0)
    (hex : s.owners t ≠ 0)
    (hsell : s.owners t = (s.listings t).seller) :
    (exec s (Op.buy sender t pay)).1 =
      { s with
        listings := setMap s.listings t
          ⟨(s.listings t).price, (s.listings t).seller, false⟩,
        owners := setMap s.owners t sender,
        pendingWithdrawals := Bal.set s.pendingWithdrawals (s.listings t).seller
          (Bal.get s.pendingWithdrawals (s.listings t).seller
            + (s.listings t).price) } := by
  by_cases hr : (s.listings t).price < pay <;>
    simp [exec, buy_ok s sender t pay hact hpay hs hex hsell, hr,
      applyTrace, applyAction]

theorem transfer_ok_active (s : MarketState) (sender fromA toA t : Nat)
    (hto : toA ≠ 0) (hex : s.owners t ≠ 0) (hauth : sender = s.owners t)
    (hfrom : s.owners t = fromA) (hact : (s.listings t).isActive = true) :
    execOp s (Op.transfer sender fromA toA t) =
      .ok [Action.setListing t
             ⟨(s.listings t).price, (s.listings t).seller, false⟩,
           Action.setOwner t toA] := by
  have hf0 : fromA ≠ 0 := hfrom ▸ hex
  simp [execOp, directTransfer, updateHook, hto, hex, hauth, hfrom, hact, hf0]

theorem transfer_post_active (s : MarketState) (sender fromA toA t : Nat)
    (hto : toA ≠ 0) (hex : s.owners t ≠ 0) (hauth : sender = s.owners t)
    (hfrom : s.owners t = fromA) (hact : (s.listings t).isActive = true) :
    (exec s (Op.transfer sender fromA toA t)).1 =
      { s with
        listings := setMap s.listings t
          ⟨(s.listings t).price, (s.listings t).seller, false⟩,
        owners := setMap s.owners t toA } := by
  simp [exec, transfer_ok_active s sender fromA toA t hto hex hauth hfrom hact,
    applyTrace, applyAction]

theorem transfer_ok_inactive (s : MarketState) (sender fromA toA t : Nat)
    (hto : toA ≠ 0) (hex : s.owners t ≠ 0) (hauth : sender = s.owners t)
    (hfrom : s.owners t = fromA) (hact : (s.listings t).isActive = false) :
    execOp s (Op.transfer sender fromA toA t) =
      .ok [Action.setOwner t toA] := by
  have hf0 : fromA ≠ 0 := hfrom ▸ hex
  simp [execOp, directTransfer, updateHook, hto, hex, hauth, hfrom, hact, hf0]

theorem transfer_post_inactive (s : MarketState) (sender fromA toA t : Nat)
    (hto : toA ≠ 0) (hex : s.owners t ≠ 0) (hauth : sender = s.owners t)
    (hfrom : s.owners t = fromA) (hact : (s.listings t).isActive = false) :
    (exec s (Op.transfer sender fromA toA t)).1 =
      { s with owners := setMap s.owners t toA } := by
  simp [exec, transfer_ok_inactive s sender fromA toA t hto hex hauth hfrom hact,
    applyTrace, applyAction]

end Base

namespace Base

theorem mint_err_zero (s : MarketState) :
    execOp s (Op.mint 0) = .error .TransferFailed := by
  simp [execOp, mintNFT]

theorem mint_err_exists (s : MarketState) (sender : Nat)
    (h : s.owners s.nextTokenIdCounter ≠ 0) :
    execOp s (Op.mint sender) = .error .TransferFailed := by
  by_cases hs : sender = 0 <;> simp [execOp, mintNFT, hs, h]

theorem transfer_err (s : MarketState) (sender fromA toA t : Nat)
    (h : toA = 0 ∨ s.owners t = 0 ∨ sender ≠ s.owners t ∨ s.owners t ≠ fromA) :
    execOp s (Op.transfer sender fromA toA t) = .error .TransferFailed := by
  by_cases h1 : toA = 0
  · simp [execOp, directTransfer, h1]
  · by_cases h2 : s.owners t = 0
    · simp [execOp, directTransfer, h1, h2]
    · by_cases h3 : sender = s.owners t
      · by_cases h4 : s.owners t = fromA
        · tauto
        · simp [execOp, directTransfer, h1, h2, h3, h4]
      · simp [execOp, directTransfer, h1, h2, h3]

/-- No operation other than a `listNFT` of token `t` can make `t`'s
listing active: once inactive, it stays inactive across every other
call (successful or reverted). -/
theorem inactive_preserved (s : MarketState) (op : Op) (t : Nat)
    (hop : ∀ a p v, op ≠ Op.list a t p v)
    (h : (s.listings t).isActive = false) :
    ((exec s op).1.listings t).isActive = false := by
  cases op with
  | mint sender =>
      by_cases hs : sender = 0
      · subst hs; rw [exec_of_err (mint_err_zero s)]; exact h
      · by_cases hf : s.owners s.nextTokenIdCounter = 0
        · rw [mint_post s sender hs hf]; exact h
        · rw [exec_of_err (mint_err_exists s sender hf)]; exact h
  | list sender t2 price pay =>
      have ht : t2 ≠ t := fun hc => (hop sender price pay (by rw [hc])).elim
      by_cases h1 : ownerCheck s t2 sender
      · by_cases h2 : price = 0
        · subst h2; rw [exec_of_err (list_err_price s sender t2 pay h1)]; exact h
        · by_cases h3 : pay < s.listingFee
          · rw [exec_of_err (list_err_fee s sender t2 price pay h1 h2 h3)]; exact h
          · by_cases h4 : (s.listings t2).isActive
            · rw [exec_of_err
                (list_err_listed s sender t2 price pay h1 h2 (Nat.not_lt.mp h3) h4)]
              exact h
            · rw [list_post s sender t2 price pay h1 h2 (Nat.not_lt.mp h3)
                (Bool.not_eq_true _ ▸ h4)]
              simpa [setMap_other _ _ _ _ (Ne.symm ht)] using h
      · rw [exec_of_err (list_err_notOwner s sender t2 price pay h1)]; exact h
  | buy sender t2 pay =>
      by_cases h1 : (s.listings t2).isActive
      · by_cases h2 : pay < (s.listings t2).price
        · rw [exec_of_err (buy_err_payment s sender t2 pay h1 h2)]; exact h
        · by_cases h3 : sender = 0 ∨ s.owners t2 = 0 ∨
              s.owners t2 ≠ (s.listings t2).seller
          · rw [exec_of_err
              (buy_err_transfer s sender t2 pay h1 (Nat.not_lt.mp h2) h3)]
            exact h
          · push_neg at h3
            obtain ⟨hs, hex, hsell⟩ := h3
            rw [buy_post s sender t2 pay h1 (Nat.not_lt.mp h2) hs hex hsell]
            by_cases ht : t2 = t
            · subst ht; simp [setMap_same]
            · simpa [setMap_other _ _ _ _ (Ne.symm ht)] using h
      · rw [exec_of_err (buy_err_notListed s sender t2 pay (Bool.not_eq_true _ ▸ h1))]
        exact h
  | cancel sender t2 =>
      by_cases h1 : ownerCheck s t2 sender
      · by_cases h2 : (s.listings t2).isActive
        · rw [cancel_post s sender t2 h1 h2]
          by_cases ht : t2 = t
          · subst ht; simp [setMap_same]
          · simpa [setMap_other _ _ _ _ (Ne.symm ht)] using h
        · rw [exec_of_err
            (cancel_err_notListed s sender t2 h1 (Bool.not_eq_true _ ▸ h2))]
          exact h
      · rw [exec_of_err (cancel_err_notOwner s sender t2 h1)]; exact h
  | withdraw a =>
      by_cases h1 : Bal.get s.pendingWithdrawals a = 0
      · rw [exec_of_err (withdraw_err s a h1)]; exact h
      · rw [withdraw_post s a h1]; exact h
  | setFee sender f =>
      by_cases h1 : sender = s.contractOwner
      · rw [setFee_post s sender f h1]; exact h
      · rw [exec_of_err (setFee_err s sender f h1)]; exact h
  | transfer sender fromA toA t2 =>
      by_cases h1 : toA = 0 ∨ s.owners t2 = 0 ∨ sender ≠ s.owners t2 ∨
          s.owners t2 ≠ fromA
      · rw [exec_of_err (transfer_err s sender fromA toA t2 h1)]; exact h
      · push_neg at h1
        obtain ⟨hto, hex, hauth, hfrom⟩ := h1
        by_cases h2 : (s.listings t2).isActive
        · rw [transfer_post_active s sender fromA toA t2 hto hex hauth hfrom h2]
          by_cases ht : t2 = t
          · subst ht; simp [setMap_same]
          · simpa [setMap_other _ _ _ _ (Ne.symm ht)] using h
        · rw [transfer_post_inactive s sender fromA toA t2 hto hex hauth hfrom
            (Bool.not_eq_true _ ▸ h2)]
          exact h

/-- `inactive_preserved`, iterated over any call sequence that contains
no `listNFT` of token `t`. -/
theorem inactive_preserved_run (t : Nat) :
    ∀ (ops : List Op) (s : MarketState),
      (∀ op ∈ ops, ∀ a p v, op ≠ Op.list a t p v) →
      (s.listings t).isActive = false →
      ((run s ops).listings t).isActive = false := by
  intro ops
  induction ops with
  | nil => intro s _ h; exact h
  | cons op rest ih =>
      intro s hops h
      show ((run (exec s op).1 rest).listings t).isActive = false
      exact ih (exec s op).1 (fun o ho => hops o (by simp [ho]))
        (inactive_preserved s op t (hops op (by simp)) h)

end Base


namespace Base

/-- Listing-ownership coherence: every active listing's token exists and
is still owned by the listing's seller. -/
def goodListings (s : MarketState) : Prop :=
  ∀ t, (s.listings t).isActive = true →
    s.owners t ≠ 0 ∧ (s.listings t).seller = s.owners t

/-- Every marketplace call preserves listing-ownership coherence (the
transfer hook repairs it on external transfers; `listNFT` establishes it;
`buyNFT` and `cancelListing` deactivate the listing). -/
theorem goodListings_preserved (s : MarketState) (op : Op)
    (hinv : goodListings s) : goodListings (exec s op).1 := by
  cases op with
  | mint sender =>
      by_cases hs : sender = 0
      · subst hs; rw [exec_of_err (mint_err_zero s)]; exact hinv
      · by_cases hf : s.owners s.nextTokenIdCounter = 0
        · rw [mint_post s sender hs hf]
          intro t hact
          simp only [] at hact
          obtain ⟨h1, h2⟩ := hinv t hact
          have ht : t ≠ s.nextTokenIdCounter := fun hc => h1 (hc ▸ hf)
          simp [setMap, ht]
          exact ⟨h1, h2⟩
        · rw [exec_of_err (mint_err_exists s sender hf)]; exact hinv
  | list sender t2 price pay =>
      by_cases h1 : ownerCheck s t2 sender
      · by_cases h2 : price = 0
        · subst h2; rw [exec_of_err (list_err_price s sender t2 pay h1)]; exact hinv
        · by_cases h3 : pay < s.listingFee
          · rw [exec_of_err (list_err_fee s sender t2 price pay h1 h2 h3)]; exact hinv
          · by_cases h4 : (s.listings t2).isActive
            · rw [exec_of_err
                (list_err_listed s sender t2 price pay h1 h2 (Nat.not_lt.mp h3) h4)]
              exact hinv
            · rw [list_post s sender t2 price pay h1 h2 (Nat.not_lt.mp h3)
                (Bool.not_eq_true _ ▸ h4)]
              intro t hact
              by_cases ht : t = t2
              · subst ht
                simp [setMap]
                exact ⟨h1.1, h1.2.symm⟩
              · simp [setMap, ht] at hact ⊢
                exact hinv t hact
      · rw [exec_of_err (list_err_notOwner s sender t2 price pay h1)]; exact hinv
  | buy sender t2 pay =>
      by_cases h1 : (s.listings t2).isActive
      · by_cases h2 : pay < (s.listings t2).price
        · rw [exec_of_err (buy_err_payment s sender t2 pay h1 h2)]; exact hinv
        · by_cases h3 : sender = 0 ∨ s.owners t2 = 0 ∨
              s.owners t2 ≠ (s.listings t2).seller
          · rw [exec_of_err
              (buy_err_transfer s sender t2 pay h1 (Nat.not_lt.mp h2) h3)]
            exact hinv
          · push_neg at h3
            obtain ⟨hs, hex, hsell⟩ := h3
            rw [buy_post s sender t2 pay h1 (Nat.not_lt.mp h2) hs hex hsell]
            intro t hact
            by_cases ht : t = t2
            · subst ht; simp [setMap] at hact
            · simp [setMap, ht] at hact ⊢
              exact hinv t hact
      · rw [exec_of_err (buy_err_notListed s sender t2 pay (Bool.not_eq_true _ ▸ h1))]
        exact hinv
  | cancel sender t2 =>
      by_cases h1 : ownerCheck s t2 sender
      · by_cases h2 : (s.listings t2).isActive
        · rw [cancel_post s sender t2 h1 h2]
          intro t hact
          by_cases ht : t = t2
          · subst ht; simp [setMap] at hact
          · simp [setMap, ht] at hact ⊢
            exact hinv t hact
        · rw [exec_of_err
            (cancel_err_notListed s sender t2 h1 (Bool.not_eq_true _ ▸ h2))]
          exact hinv
      · rw [exec_of_err (cancel_err_notOwner s sender t2 h1)]; exact hinv
  | withdraw a =>
      by_cases h1 : Bal.get s.pendingWithdrawals a = 0
      · rw [exec_of_err (withdraw_err s a h1)]; exact hinv
      · rw [withdraw_post s a h1]; exact hinv
  | setFee sender f =>
      by_cases h1 : sender = s.contractOwner
      · rw [setFee_post s sender f h1]; exact hinv
      · rw [exec_of_err (setFee_err s sender f h1)]; exact hinv
  | transfer sender fromA toA t2 =>
      by_cases h1 : toA = 0 ∨ s.owners t2 = 0 ∨ sender ≠ s.owners t2 ∨
          s.owners t2 ≠ fromA
      · rw [exec_of_err (transfer_err s sender fromA toA t2 h1)]; exact hinv
      · push_neg at h1
        obtain ⟨hto, hex, hauth, hfrom⟩ := h1
        by_cases h2 : (s.listings t2).isActive
        · rw [transfer_post_active s sender fromA toA t2 hto hex hauth hfrom h2]
          intro t hact
          by_cases ht : t = t2
          · subst ht; simp [setMap] at hact
          · simp [setMap, ht] at hact ⊢
            exact hinv t hact
        · rw [transfer_post_inactive s sender fromA toA t2 hto hex hauth hfrom
            (Bool.not_eq_true _ ▸ h2)]
          intro t hact
          by_cases ht : t = t2
          · subst ht
            simp only [] at hact
            exact absurd hact h2
          · simp [setMap, ht] at hact ⊢
            exact hinv t hact

/-- Listing-ownership coherence holds in every state reachable from
deployment. -/
theorem goodListings_run (deployer : Nat) (ops : List Op) :
    goodListings (run (genesis deployer) ops) := by
  have h : ∀ (l : List Op) (s : MarketState),
      goodListings s → goodListings (run s l) := by
    intro l
    induction l with
    | nil => intro s h; exact h
    | cons op rest ih =>
        intro s h
        exact ih (exec s op).1 (goodListings_preserved s op h)
  exact h ops (genesis deployer)
    (by intro t hact; simp [genesis, Listing.empty] at hact)

end Base

namespace Base

/-- Running totals of value that crossed the engine boundary: paid out by
successful `withdrawFunds`, listing fees collected by (sent to) the
operator, listing prices received through successful `buyNFT`, and
listing fees paid in by successful `listNFT`.  Overpayment refunds are
excluded on both sides: they return immediately and never enter escrow. -/
structure Tally where
  withdrawn : Nat
  feesCollected : Nat
  buyRevenue : Nat
  feesPaidIn : Nat
deriving Repr, DecidableEq

def Tally.zero : Tally := ⟨0, 0, 0, 0⟩

/-- Tally update for one successful operation, read off the pre-state:
a successful `list` collects and pays in exactly `listingFee`, a
successful `buy` receives exactly the listing price (the escrowed part
of the payment), a successful `withdraw` pays out the prior balance. -/
def tallyOf (s : MarketState) : Op → Tally → Tally
  | Op.list _ _ _ _, t =>
      { t with feesCollected := t.feesCollected + s.listingFee,
               feesPaidIn := t.feesPaidIn + s.listingFee }
  | Op.buy _ tok _, t =>
      { t with buyRevenue := t.buyRevenue + (s.listings tok).price }
  | Op.withdraw a, t =>
      { t with withdrawn := t.withdrawn + Bal.get s.pendingWithdrawals a }
  | _, t => t

/-- One transaction with its accounting: failed calls change no tally. -/
def stepT (p : MarketState × Tally) (op : Op) : MarketState × Tally :=
  ((exec p.1 op).1,
   match (exec p.1 op).2 with
   | .ok _ => tallyOf p.1 op p.2
   | .error _ => p.2)

def runT (p : MarketState × Tally) : List Op → MarketState × Tally
  | [] => p
  | op :: ops => runT (stepT p op) ops

/-- The conservation equation: escrow still held plus value paid out
(withdrawals and operator fees) equals value paid in (buy prices and
listing fees). -/
def conserved (p : MarketState × Tally) : Prop :=
  Bal.total p.1.pendingWithdrawals + p.2.withdrawn + p.2.feesCollected
    = p.2.buyRevenue + p.2.feesPaidIn

theorem conserved_step (p : MarketState × Tally) (op : Op)
    (h : conserved p) : conserved (stepT p op) := by
  obtain ⟨s, tl⟩ := p
  have herr : ∀ e, (exec s op).2 = Except.error e → conserved (stepT (s, tl) op) := by
    intro e he
    unfold stepT
    rw [exec_err_state he, he]
    exact h
  cases op with
  | mint sender =>
      by_cases hs : sender = 0
      · subst hs
        exact herr _ (by rw [exec_of_err (mint_err_zero s)])
      · by_cases hf : s.owners s.nextTokenIdCounter = 0
        · unfold stepT
          rw [mint_post s sender hs hf,
            show (exec s (Op.mint sender)).2 = Except.ok _ from by
              rw [exec_of_ok (mint_ok s sender hs hf)]]
          exact h
        · exact herr _ (by rw [exec_of_err (mint_err_exists s sender hf)])
  | list sender t2 price pay =>
      by_cases h1 : ownerCheck s t2 sender
      · by_cases h2 : price = 0
        · subst h2
          exact herr _ (by rw [exec_of_err (list_err_price s sender t2 pay h1)])
        · by_cases h3 : pay < s.listingFee
          · exact herr _
              (by rw [exec_of_err (list_err_fee s sender t2 price pay h1 h2 h3)])
          · by_cases h4 : (s.listings t2).isActive
            · exact herr _ (by rw [exec_of_err
                (list_err_listed s sender t2 price pay h1 h2 (Nat.not_lt.mp h3) h4)])
            · unfold stepT
              rw [list_post s sender t2 price pay h1 h2 (Nat.not_lt.mp h3)
                  (Bool.not_eq_true _ ▸ h4),
                show (exec s (Op.list sender t2 price pay)).2 = Except.ok _ from by
                  rw [exec_of_ok (list_ok s sender t2 price pay h1 h2
                    (Nat.not_lt.mp h3) (Bool.not_eq_true _ ▸ h4))]]
              unfold conserved at h ⊢
              dsimp only [tallyOf] at h ⊢
              omega
      · exact herr _ (by rw [exec_of_err (list_err_notOwner s sender t2 price pay h1)])
  | buy sender t2 pay =>
      by_cases h1 : (s.listings t2).isActive
      · by_cases h2 : pay < (s.listings t2).price
        · exact herr _ (by rw [exec_of_err (buy_err_payment s sender t2 pay h1 h2)])
        · by_cases h3 : sender = 0 ∨ s.owners t2 = 0 ∨
              s.owners t2 ≠ (s.listings t2).seller
          · exact herr _ (by rw [exec_of_err
              (buy_err_transfer s sender t2 pay h1 (Nat.not_lt.mp h2) h3)])
          · push_neg at h3
            obtain ⟨hs, hex, hsell⟩ := h3
            unfold stepT
            rw [buy_post s sender t2 pay h1 (Nat.not_lt.mp h2) hs hex hsell,
              show (exec s (Op.buy sender t2 pay)).2 = Except.ok _ from by
                rw [exec_of_ok (buy_ok s sender t2 pay h1 (Nat.not_lt.mp h2)
                  hs hex hsell)]]
            unfold conserved at h ⊢
            dsimp only [tallyOf] at h ⊢
            have := Bal.total_set s.pendingWithdrawals (s.listings t2).seller
              (Bal.get s.pendingWithdrawals (s.listings t2).seller
                + (s.listings t2).price)
            omega
      · exact herr _ (by rw [exec_of_err
          (buy_err_notListed s sender t2 pay (Bool.not_eq_true _ ▸ h1))])
  | cancel sender t2 =>
      by_cases h1 : ownerCheck s t2 sender
      · by_cases h2 : (s.listings t2).isActive
        · unfold stepT
          rw [cancel_post s sender t2 h1 h2,
            show (exec s (Op.cancel sender t2)).2 = Except.ok _ from by
              rw [exec_of_ok (cancel_ok s sender t2 h1 h2)]]
          exact h
        · exact herr _ (by rw [exec_of_err
            (cancel_err_notListed s sender t2 h1 (Bool.not_eq_true _ ▸ h2))])
      · exact herr _ (by rw [exec_of_err (cancel_err_notOwner s sender t2 h1)])
  | withdraw a =>
      by_cases h1 : Bal.get s.pendingWithdrawals a = 0
      · exact herr _ (by rw [exec_of_err (withdraw_err s a h1)])
      · unfold stepT
        rw [withdraw_post s a h1,
          show (exec s (Op.withdraw a)).2 = Except.ok _ from by
            rw [exec_of_ok (withdraw_ok s a h1)]]
        unfold conserved at h ⊢
        dsimp only [tallyOf] at h ⊢
        have := Bal.total_set s.pendingWithdrawals a 0
        omega
  | setFee sender f =>
      by_cases h1 : sender = s.contractOwner
      · unfold stepT
        rw [setFee_post s sender f h1,
          show (exec s (Op.setFee sender f)).2 = Except.ok _ from by
            rw [exec_of_ok (setFee_ok s sender f h1)]]
        exact h
      · exact herr _ (by rw [exec_of_err (setFee_err s sender f h1)])
  | transfer sender fromA toA t2 =>
      by_cases h1 : toA = 0 ∨ s.owners t2 = 0 ∨ sender ≠ s.owners t2 ∨
          s.owners t2 ≠ fromA
      · exact herr _ (by rw [exec_of_err (transfer_err s sender fromA toA t2 h1)])
      · push_neg at h1
        obtain ⟨hto, hex, hauth, hfrom⟩ := h1
        by_cases h2 : (s.listings t2).isActive
        · unfold stepT
          rw [transfer_post_active s sender fromA toA t2 hto hex hauth hfrom h2,
            show (exec s (Op.transfer sender fromA toA t2)).2 = Except.ok _ from by
              rw [exec_of_ok
                (transfer_ok_active s sender fromA toA t2 hto hex hauth hfrom h2)]]
          exact h
        · unfold stepT
          rw [transfer_post_inactive s sender fromA toA t2 hto hex hauth hfrom
              (Bool.not_eq_true _ ▸ h2),
            show (exec s (Op.transfer sender fromA toA t2)).2 = Except.ok _ from by
              rw [exec_of_ok (transfer_ok_inactive s sender fromA toA t2
                hto hex hauth hfrom (Bool.not_eq_true _ ▸ h2))]]
          exact h

theorem conserved_runT (p : MarketState × Tally) (ops : List Op)
    (h : conserved p) : conserved (runT p ops) := by
  induction ops generalizing p with
  | nil => exact h
  | cons op rest ih => exact ih (stepT p op) (conserved_step p op h)

end Base

namespace Opt

/-! ### Per-operation characterizations (optimized variant) -/

theorem opt_exec_of_ok {s : MarketState} {op : Op} {tr : List Action}
    (h : execOp s op = .ok tr) : exec s op = (applyTrace s tr, .ok tr) := by
  simp [exec, h]

theorem opt_exec_of_err {s : MarketState} {op : Op} {e : Err}
    (h : execOp s op = .error e) : exec s op = (s, .error e) := by
  simp [exec, h]

theorem opt_exec_err_state {s : MarketState} {op : Op} {e : Err}
    (h : (exec s op).2 = .error e) : (exec s op).1 = s := by
  unfold exec at h ⊢
  cases hr : execOp s op with
  | ok tr => simp [hr] at h
  | error e2 => simp [hr]

theorem opt_withdraw_err (s : MarketState) (a : Nat)
    (h : Bal.get s.pendingWithdrawals a = 0) :
    execOp s (Op.withdraw a) = .error .NothingToWithdraw := by
  simp [execOp, withdrawFunds, h]

theorem opt_withdraw_ok (s : MarketState) (a : Nat)
    (h : Bal.get s.pendingWithdrawals a ≠ 0) :
    execOp s (Op.withdraw a) =
      .ok [Action.setEscrow a 0, Action.send a (Bal.get s.pendingWithdrawals a)] := by
  simp [execOp, withdrawFunds, h]

theorem opt_withdraw_post (s : MarketState) (a : Nat)
    (h : Bal.get s.pendingWithdrawals a ≠ 0) :
    (exec s (Op.withdraw a)).1 =
      { s with pendingWithdrawals := Bal.set s.pendingWithdrawals a 0 } := by
  simp [exec, opt_withdraw_ok s a h, applyTrace, applyAction]

theorem setFee_err_auth (s : MarketState) (sender f : Nat)
    (h : sender ≠ s.contractOwner) :
    execOp s (Op.setFee sender f) = .error .Unauthorized := by
  simp [execOp, setListingFee, h]

theorem setFee_err_high (s : MarketState) (sender f : Nat)
    (h : sender = s.contractOwner) (hf : uint96max < f) :
    execOp s (Op.setFee sender f) = .error .FeeTooHigh := by
  simp [execOp, setListingFee, h, hf]

theorem opt_setFee_ok (s : MarketState) (sender f : Nat)
    (h : sender = s.contractOwner) (hf : f ≤ uint96max) :
    execOp s (Op.setFee sender f) =
      .ok [Action.setFeeVal f, Action.emit (.ListingFeeUpdated f)] := by
  simp [execOp, setListingFee, h, Nat.not_lt.mpr hf]

theorem opt_setFee_post (s : MarketState) (sender f : Nat)
    (h : sender = s.contractOwner) (hf : f ≤ uint96max) :
    (exec s (Op.setFee sender f)).1 = { s with listingFee := f } := by
  simp [exec, opt_setFee_ok s sender f h hf, applyTrace, applyAction]

theorem opt_mint_err_zero (s : MarketState) :
    execOp s (Op.mint 0) = .error .TransferFailed := by
  simp [execOp, mintNFT]

theorem opt_mint_err_exists (s : MarketState) (sender : Nat)
    (h : s.owners s.nextTokenIdCounter ≠ 0) :
    execOp s (Op.mint sender) = .error .TransferFailed := by
  by_cases hs : sender = 0 <;> simp [execOp, mintNFT, hs, h]

theorem opt_mint_ok (s : MarketState) (sender : Nat)
    (hs : sender ≠ 0) (hfresh : s.owners s.nextTokenIdCounter = 0) :
    execOp s (Op.mint sender) =
      .ok [Action.bumpCounter, Action.setOwner s.nextTokenIdCounter sender] := by
  simp [execOp, mintNFT, hs, hfresh]

theorem opt_mint_post (s : MarketState) (sender : Nat)
    (hs : sender ≠ 0) (hfresh : s.owners s.nextTokenIdCounter = 0) :
    (exec s (Op.mint sender)).1 =
      { s with owners := setMap s.owners s.nextTokenIdCounter sender,
               nextTokenIdCounter := s.nextTokenIdCounter + 1 } := by
  simp [exec, opt_mint_ok s sender hs hfresh, applyTrace, applyAction]

theorem opt_list_err_price (s : MarketState) (sender t pay : Nat) :
    execOp s (Op.list sender t 0 pay) = .error .InvalidPrice := by
  simp [execOp, listNFT]

theorem list_err_high (s : MarketState) (sender t price pay : Nat)
    (hp : uint96max < price) :
    execOp s (Op.list sender t price pay) = .error .InvalidPrice := by
  have hp0 : price ≠ 0 := by
    intro h; rw [h] at hp; exact absurd hp (by simp [uint96max])
  simp [execOp, listNFT, hp, hp0]

theorem opt_list_err_fee (s : MarketState) (sender t price pay : Nat)
    (hp : price ≠ 0) (hb : price ≤ uint96max) (hf : pay < s.listingFee) :
    execOp s (Op.list sender t price pay) = .error .InsufficientFee := by
  simp [execOp, listNFT, hp, Nat.not_lt.mpr hb, hf]

theorem opt_list_err_notOwner (s : MarketState) (sender t price pay : Nat)
    (hp : price ≠ 0) (hb : price ≤ uint96max) (hf : s.listingFee ≤ pay)
    (h : ¬ ownerCheck s t sender) :
    execOp s (Op.list sender t price pay) = .error .NotOwner := by
  simp [execOp, listNFT, hp, Nat.not_lt.mpr hb, Nat.not_lt.mpr hf, h]

theorem opt_list_err_listed (s : MarketState) (sender t price pay : Nat)
    (hp : price ≠ 0) (hb : price ≤ uint96max) (hf : s.listingFee ≤ pay)
    (h : ownerCheck s t sender) (ha : (s.listings t).price ≠ 0) :
    execOp s (Op.list sender t price pay) = .error .AlreadyListed := by
  simp [execOp, listNFT, hp, Nat.not_lt.mpr hb, Nat.not_lt.mpr hf, h, ha]

theorem opt_list_ok (s : MarketState) (sender t price pay : Nat)
    (hp : price ≠ 0) (hb : price ≤ uint96max) (hf : s.listingFee ≤ pay)
    (h : ownerCheck s t sender) (ha : (s.listings t).price = 0) :
    execOp s (Op.list sender t price pay) =
      .ok ([Action.setListing t ⟨price, sender⟩,
            Action.send s.contractOwner s.listingFee]
           ++ (if s.listingFee < pay then
                 [Action.send sender (pay - s.listingFee)] else [])
           ++ [Action.emit (.NFTListed t sender price)]) := by
  have hiff : (0 < pay - s.listingFee) = (s.listingFee < pay) := by
    apply propext; omega
  simp [execOp, listNFT, hp, Nat.not_lt.mpr hb, Nat.not_lt.mpr hf, h, ha, hiff]

theorem opt_list_post (s : MarketState) (sender t price pay : Nat)
    (hp : price ≠ 0) (hb : price ≤ uint96max) (hf : s.listingFee ≤ pay)
    (h : ownerCheck s t sender) (ha : (s.listings t).price = 0) :
    (exec s (Op.list sender t price pay)).1 =
      { s with listings := setMap s.listings t ⟨price, sender⟩ } := by
  by_cases hr : s.listingFee < pay <;>
    simp [exec, opt_list_ok s sender t price pay hp hb hf h ha, hr,
      applyTrace, applyAction]

theorem opt_cancel_err_notOwner (s : MarketState) (sender t : Nat)
    (h : ¬ ownerCheck s t sender) :
    execOp s (Op.cancel sender t) = .error .NotOwner := by
  simp [execOp, cancelListing, h]

theorem opt_cancel_err_notListed (s : MarketState) (sender t : Nat)
    (h : ownerCheck s t sender) (ha : (s.listings t).price = 0) :
    execOp s (Op.cancel sender t) = .error .NotListed := by
  simp [execOp, cancelListing, h, ha]

theorem opt_cancel_ok (s : MarketState) (sender t : Nat)
    (h : ownerCheck s t sender) (ha : (s.listings t).price ≠ 0) :
    execOp s (Op.cancel sender t) =
      .ok [Action.setListing t Listing.empty,
           Action.emit (.ListingCancelled t)] := by
  simp [execOp, cancelListing, h, ha]

theorem opt_cancel_post (s : MarketState) (sender t : Nat)
    (h : ownerCheck s t sender) (ha : (s.listings t).price ≠ 0) :
    (exec s (Op.cancel sender t)).1 =
      { s with listings := setMap s.listings t Listing.empty } := by
  simp [exec, opt_cancel_ok s sender t h ha, applyTrace, applyAction]

theorem opt_buy_err_notListed (s : MarketState) (sender t pay : Nat)
    (h : (s.listings t).price = 0) :
    execOp s (Op.buy sender t pay) = .error .NotListed := by
  simp [execOp, buyNFT, h]

theorem opt_buy_err_payment (s : MarketState) (sender t pay : Nat)
    (h : (s.listings t).price ≠ 0) (hp : pay < (s.listings t).price) :
    execOp s (Op.buy sender t pay) = .error .InsufficientPayment := by
  simp [execOp, buyNFT, h, hp]

theorem opt_buy_err_transfer (s : MarketState) (sender t pay : Nat)
    (h : (s.listings t).price ≠ 0) (hp : (s.listings t).price ≤ pay)
    (hfail : sender = 0 ∨ s.owners t = 0 ∨ s.owners t ≠ (s.listings t).seller) :
    execOp s (Op.buy sender t pay) = .error .TransferFailed := by
  have hnp : ¬ pay < (s.listings t).price := Nat.not_lt.mpr hp
  rcases hfail with h0 | h0 | h0
  · simp [execOp, buyNFT, erc721Transfer, h, hnp, h0]
  · simp [execOp, buyNFT, erc721Transfer, h, hnp, applyAction, h0]
  · by_cases hs : sender = 0
    · simp [execOp, buyNFT, erc721Transfer, h, hnp, hs]
    · by_cases he : s.owners t = 0
      · simp [execOp, buyNFT, erc721Transfer, h, hnp, applyAction, hs, he]
      · simp [execOp, buyNFT, erc721Transfer, h, hnp, applyAction, hs, he, h0]

theorem opt_buy_ok (s : MarketState) (sender t pay : Nat)
    (hact : (s.listings t).price ≠ 0)
    (hpay : (s.listings t).price ≤ pay)
    (hs : sender ≠ 0)
    (hex : s.owners t ≠ 0)
    (hsell : s.owners t = (s.listings t).seller) :
    execOp s (Op.buy sender t pay) =
      .ok ([Action.setListing t Listing.empty,
            Action.setOwner t sender,
            Action.setEscrow (s.listings t).seller
              (Bal.get s.pendingWithdrawals (s.listings t).seller
                + (s.listings t).price)]
           ++ (if (s.listings t).price < pay then
                 [Action.send sender (pay - (s.listings t).price)] else [])
           ++ [Action.emit
                 (.NFTSold t sender (s.listings t).seller (s.listings t).price)]) := by
  have hnp : ¬ pay < (s.listings t).price := Nat.not_lt.mpr hpay
  have hsell2 : (s.listings t).seller ≠ 0 := hsell ▸ hex
  have hiff : (0 < pay - (s.listings t).price) = ((s.listings t).price < pay) := by
    apply propext; omega
  simp [execOp, buyNFT, erc721Transfer, updateHook, applyAction, applyTrace,
    hact, hnp, hs, hsell, hsell2, setMap_same, Listing.empty, hiff]

theorem opt_buy_post (s : MarketState) (sender t pay : Nat)
    (hact : (s.listings t).price ≠ 0)
    (hpay : (s.listings t).price ≤ pay)
    (hs : sender ≠ 0)
    (hex : s.owners t ≠ 0)
    (hsell : s.owners t = (s.listings t).seller) :
    (exec s (Op.buy sender t pay)).1 =
      { s with
        listings := setMap s.listings t Listing.empty,
        owners := setMap s.owners t sender,
        pendingWithdrawals := Bal.set s.pendingWithdrawals (s.listings t).seller
          (Bal.get s.pendingWithdrawals (s.listings t).seller
            + (s.listings t).price) } := by
  by_cases hr : (s.listings t).price < pay <;>
    simp [exec, opt_buy_ok s sender t pay hact hpay hs hex hsell, hr,
      applyTrace, applyAction]

theorem opt_transfer_err (s : MarketState) (sender fromA toA t : Nat)
    (h : toA = 0 ∨ s.owners t = 0 ∨ sender ≠ s.owners t ∨ s.owners t ≠ fromA) :
    execOp s (Op.transfer sender fromA toA t) = .error .TransferFailed := by
  by_cases h1 : toA = 0
  · simp [execOp, directTransfer, h1]
  · by_cases h2 : s.owners t = 0
    · simp [execOp, directTransfer, h1, h2]
    · by_cases h3 : sender = s.owners t
      · by_cases h4 : s.owners t = fromA
        · tauto
        · simp [execOp, directTransfer, h1, h2, h3, h4]
      · simp [execOp, directTransfer, h1, h2, h3]

theorem opt_transfer_ok_active (s : MarketState) (sender fromA toA t : Nat)
    (hto : toA ≠ 0) (hex : s.owners t ≠ 0) (hauth : sender = s.owners t)
    (hfrom : s.owners t = fromA) (hact : (s.listings t).price ≠ 0) :
    execOp s (Op.transfer sender fromA toA t) =
      .ok [Action.setListing t Listing.empty, Action.setOwner t toA] := by
  have hf0 : fromA ≠ 0 := hfrom ▸ hex
  simp [execOp, directTransfer, updateHook, hto, hex, hauth, hfrom, hact, hf0]

theorem opt_transfer_post_active (s : MarketState) (sender fromA toA t : Nat)
    (hto : toA ≠ 0) (hex : s.owners t ≠ 0) (hauth : sender = s.owners t)
    (hfrom : s.owners t = fromA) (hact : (s.listings t).price ≠ 0) :
    (exec s (Op.transfer sender fromA toA t)).1 =
      { s with
        listings := setMap s.listings t Listing.empty,
        owners := setMap s.owners t toA } := by
  simp [exec, opt_transfer_ok_active s sender fromA toA t hto hex hauth hfrom hact,
    applyTrace, applyAction]

theorem opt_transfer_ok_inactive (s : MarketState) (sender fromA toA t : Nat)
    (hto : toA ≠ 0) (hex : s.owners t ≠ 0) (hauth : sender = s.owners t)
    (hfrom : s.owners t = fromA) (hact : (s.listings t).price = 0) :
    execOp s (Op.transfer sender fromA toA t) =
      .ok [Action.setOwner t toA] := by
  have hf0 : fromA ≠ 0 := hfrom ▸ hex
  simp [execOp, directTransfer, updateHook, hto, hex, hauth, hfrom, hact, hf0]

theorem opt_transfer_post_inactive (s : MarketState) (sender fromA toA t : Nat)
    (hto : toA ≠ 0) (hex : s.owners t ≠ 0) (hauth : sender = s.owners t)
    (hfrom : s.owners t = fromA) (hact : (s.listings t).price = 0) :
    (exec s (Op.transfer sender fromA toA t)).1 =
      { s with owners := setMap s.owners t toA } := by
  simp [exec, opt_transfer_ok_inactive s sender fromA toA t hto hex hauth hfrom hact,
    applyTrace, applyAction]

end Opt

namespace Opt

/-- In the optimized variant the activity predicate is `price > 0`; once
a token's listing is deleted, no operation except a `listNFT` of that
token can recreate it. -/
theorem opt_inactive_preserved (s : MarketState) (op : Op) (t : Nat)
    (hop : ∀ a p v, op ≠ Op.list a t p v)
    (h : (s.listings t).price = 0) :
    ((exec s op).1.listings t).price = 0 := by
  cases op with
  | mint sender =>
      by_cases hs : sender = 0
      · subst hs; rw [opt_exec_of_err (opt_mint_err_zero s)]; exact h
      · by_cases hf : s.owners s.nextTokenIdCounter = 0
        · rw [opt_mint_post s sender hs hf]; exact h
        · rw [opt_exec_of_err (opt_mint_err_exists s sender hf)]; exact h
  | list sender t2 price pay =>
      have ht : t2 ≠ t := fun hc => (hop sender price pay (by rw [hc])).elim
      by_cases hp : price = 0
      · subst hp; rw [opt_exec_of_err (opt_list_err_price s sender t2 pay)]; exact h
      · by_cases hb : uint96max < price
        · rw [opt_exec_of_err (list_err_high s sender t2 price pay hb)]; exact h
        · by_cases hf : pay < s.listingFee
          · rw [opt_exec_of_err
              (opt_list_err_fee s sender t2 price pay hp (Nat.not_lt.mp hb) hf)]
            exact h
          · by_cases h1 : ownerCheck s t2 sender
            · by_cases ha : (s.listings t2).price = 0
              · rw [opt_list_post s sender t2 price pay hp (Nat.not_lt.mp hb)
                  (Nat.not_lt.mp hf) h1 ha]
                simpa [setMap, Ne.symm ht] using h
              · rw [opt_exec_of_err (opt_list_err_listed s sender t2 price pay hp
                  (Nat.not_lt.mp hb) (Nat.not_lt.mp hf) h1 ha)]
                exact h
            · rw [opt_exec_of_err (opt_list_err_notOwner s sender t2 price pay hp
                (Nat.not_lt.mp hb) (Nat.not_lt.mp hf) h1)]
              exact h
  | buy sender t2 pay =>
      by_cases h1 : (s.listings t2).price = 0
      · rw [opt_exec_of_err (opt_buy_err_notListed s sender t2 pay h1)]; exact h
      · by_cases h2 : pay < (s.listings t2).price
        · rw [opt_exec_of_err (opt_buy_err_payment s sender t2 pay h1 h2)]; exact h
        · by_cases h3 : sender = 0 ∨ s.owners t2 = 0 ∨
              s.owners t2 ≠ (s.listings t2).seller
          · rw [opt_exec_of_err
              (opt_buy_err_transfer s sender t2 pay h1 (Nat.not_lt.mp h2) h3)]
            exact h
          · push_neg at h3
            obtain ⟨hs, hex, hsell⟩ := h3
            rw [opt_buy_post s sender t2 pay h1 (Nat.not_lt.mp h2) hs hex hsell]
            by_cases ht : t2 = t
            · subst ht; simp [setMap, Listing.empty]
            · simpa [setMap, Ne.symm ht] using h
  | cancel sender t2 =>
      by_cases h1 : ownerCheck s t2 sender
      · by_cases h2 : (s.listings t2).price = 0
        · rw [opt_exec_of_err (opt_cancel_err_notListed s sender t2 h1 h2)]; exact h
        · rw [opt_cancel_post s sender t2 h1 h2]
          by_cases ht : t2 = t
          · subst ht; simp [setMap, Listing.empty]
          · simpa [setMap, Ne.symm ht] using h
      · rw [opt_exec_of_err (opt_cancel_err_notOwner s sender t2 h1)]; exact h
  | withdraw a =>
      by_cases h1 : Bal.get s.pendingWithdrawals a = 0
      · rw [opt_exec_of_err (opt_withdraw_err s a h1)]; exact h
      · rw [opt_withdraw_post s a h1]; exact h
  | setFee sender f =>
      by_cases h1 : sender = s.contractOwner
      · by_cases h2 : uint96max < f
        · rw [opt_exec_of_err (setFee_err_high s sender f h1 h2)]; exact h
        · rw [opt_setFee_post s sender f h1 (Nat.not_lt.mp h2)]; exact h
      · rw [opt_exec_of_err (setFee_err_auth s sender f h1)]; exact h
  | transfer sender fromA toA t2 =>
      by_cases h1 : toA = 0 ∨ s.owners t2 = 0 ∨ sender ≠ s.owners t2 ∨
          s.owners t2 ≠ fromA
      · rw [opt_exec_of_err (opt_transfer_err s sender fromA toA t2 h1)]; exact h
      · push_neg at h1
        obtain ⟨hto, hex, hauth, hfrom⟩ := h1
        by_cases h2 : (s.listings t2).price = 0
        · rw [opt_transfer_post_inactive s sender fromA toA t2 hto hex hauth hfrom h2]
          exact h
        · rw [opt_transfer_post_active s sender fromA toA t2 hto hex hauth hfrom h2]
          by_cases ht : t2 = t
          · subst ht; simp [setMap, Listing.empty]
          · simpa [setMap, Ne.symm ht] using h

/-- `opt_inactive_preserved`, iterated over any call sequence containing no
`listNFT` of token `t`. -/
theorem opt_inactive_preserved_run (t : Nat) :
    ∀ (ops : List Op) (s : MarketState),
      (∀ op ∈ ops, ∀ a p v, op ≠ Op.list a t p v) →
      (s.listings t).price = 0 →
      ((run s ops).listings t).price = 0 := by
  intro ops
  induction ops with
  | nil => intro s _ h; exact h
  | cons op rest ih =>
      intro s hops h
      exact ih (exec s op).1 (fun o ho => hops o (by simp [ho]))
        (opt_inactive_preserved s op t (hops op (by simp)) h)

/-- Listing-ownership coherence, optimized variant. -/
def goodListings (s : MarketState) : Prop :=
  ∀ t, (s.listings t).price ≠ 0 →
    s.owners t ≠ 0 ∧ (s.listings t).seller = s.owners t

theorem opt_goodListings_preserved (s : MarketState) (op : Op)
    (hinv : goodListings s) : goodListings (exec s op).1 := by
  cases op with
  | mint sender =>
      by_cases hs : sender = 0
      · subst hs; rw [opt_exec_of_err (opt_mint_err_zero s)]; exact hinv
      · by_cases hf : s.owners s.nextTokenIdCounter = 0
        · rw [opt_mint_post s sender hs hf]
          intro t hact
          simp only [] at hact
          obtain ⟨h1, h2⟩ := hinv t hact
          have ht : t ≠ s.nextTokenIdCounter := fun hc => h1 (hc ▸ hf)
          simp [setMap, ht]
          exact ⟨h1, h2⟩
        · rw [opt_exec_of_err (opt_mint_err_exists s sender hf)]; exact hinv
  | list sender t2 price pay =>
      by_cases hp : price = 0
      · subst hp; rw [opt_exec_of_err (opt_list_err_price s sender t2 pay)]; exact hinv
      · by_cases hb : uint96max < price
        · rw [opt_exec_of_err (list_err_high s sender t2 price pay hb)]; exact hinv
        · by_cases hf : pay < s.listingFee
          · rw [opt_exec_of_err
              (opt_list_err_fee s sender t2 price pay hp (Nat.not_lt.mp hb) hf)]
            exact hinv
          · by_cases h1 : ownerCheck s t2 sender
            · by_cases ha : (s.listings t2).price = 0
              · rw [opt_list_post s sender t2 price pay hp (Nat.not_lt.mp hb)
                  (Nat.not_lt.mp hf) h1 ha]
                intro t hact
                by_cases ht : t = t2
                · subst ht
                  simp [setMap]
                  exact ⟨h1.1, h1.2.symm⟩
                · simp [setMap, ht] at hact ⊢
                  exact hinv t hact
              · rw [opt_exec_of_err (opt_list_err_listed s sender t2 price pay hp
                  (Nat.not_lt.mp hb) (Nat.not_lt.mp hf) h1 ha)]
                exact hinv
            · rw [opt_exec_of_err (opt_list_err_notOwner s sender t2 price pay hp
                (Nat.not_lt.mp hb) (Nat.not_lt.mp hf) h1)]
              exact hinv
  | buy sender t2 pay =>
      by_cases h1 : (s.listings t2).price = 0
      · rw [opt_exec_of_err (opt_buy_err_notListed s sender t2 pay h1)]; exact hinv
      · by_cases h2 : pay < (s.listings t2).price
        · rw [opt_exec_of_err (opt_buy_err_payment s sender t2 pay h1 h2)]; exact hinv
        · by_cases h3 : sender = 0 ∨ s.owners t2 = 0 ∨
              s.owners t2 ≠ (s.listings t2).seller
          · rw [opt_exec_of_err
              (opt_buy_err_transfer s sender t2 pay h1 (Nat.not_lt.mp h2) h3)]
            exact hinv
          · push_neg at h3
            obtain ⟨hs, hex, hsell⟩ := h3
            rw [opt_buy_post s sender t2 pay h1 (Nat.not_lt.mp h2) hs hex hsell]
            intro t hact
            by_cases ht : t = t2
            · subst ht; simp [setMap, Listing.empty] at hact
            · simp [setMap, ht] at hact ⊢
              exact hinv t hact
  | cancel sender t2 =>
      by_cases h1 : ownerCheck s t2 sender
      · by_cases h2 : (s.listings t2).price = 0
        · rw [opt_exec_of_err (opt_cancel_err_notListed s sender t2 h1 h2)]; exact hinv
        · rw [opt_cancel_post s sender t2 h1 h2]
          intro t hact
          by_cases ht : t = t2
          · subst ht; simp [setMap, Listing.empty] at hact
          · simp [setMap, ht] at hact ⊢
            exact hinv t hact
      · rw [opt_exec_of_err (opt_cancel_err_notOwner s sender t2 h1)]; exact hinv
  | withdraw a =>
      by_cases h1 : Bal.get s.pendingWithdrawals a = 0
      · rw [opt_exec_of_err (opt_withdraw_err s a h1)]; exact hinv
      · rw [opt_withdraw_post s a h1]; exact hinv
  | setFee sender f =>
      by_cases h1 : sender = s.contractOwner
      · by_cases h2 : uint96max < f
        · rw [opt_exec_of_err (setFee_err_high s sender f h1 h2)]; exact hinv
        · rw [opt_setFee_post s sender f h1 (Nat.not_lt.mp h2)]; exact hinv
      · rw [opt_exec_of_err (setFee_err_auth s sender f h1)]; exact hinv
  | transfer sender fromA toA t2 =>
      by_cases h1 : toA = 0 ∨ s.owners t2 = 0 ∨ sender ≠ s.owners t2 ∨
          s.owners t2 ≠ fromA
      · rw [opt_exec_of_err (opt_transfer_err s sender fromA toA t2 h1)]; exact hinv
      · push_neg at h1
        obtain ⟨hto, hex, hauth, hfrom⟩ := h1
        by_cases h2 : (s.listings t2).price = 0
        · rw [opt_transfer_post_inactive s sender fromA toA t2 hto hex hauth hfrom h2]
          intro t hact
          by_cases ht : t = t2
          · subst ht
            simp only [] at hact
            exact absurd h2 hact
          · simp [setMap, ht] at hact ⊢
            exact hinv t hact
        · rw [opt_transfer_post_active s sender fromA toA t2 hto hex hauth hfrom h2]
          intro t hact
          by_cases ht : t = t2
          · subst ht; simp [setMap, Listing.empty] at hact
          · simp [setMap, ht] at hact ⊢
            exact hinv t hact

/-- Listing-ownership coherence holds in every reachable state of the
optimized variant. -/
theorem opt_goodListings_run (deployer : Nat) (ops : List Op) :
    goodListings (run (genesis deployer) ops) := by
  have h : ∀ (l : List Op) (s : MarketState),
      goodListings s → goodListings (run s l) := by
    intro l
    induction l with
    | nil => intro s h; exact h
    | cons op rest ih =>
        intro s h
        exact ih (exec s op).1 (opt_goodListings_preserved s op h)
  exact h ops (genesis deployer)
    (by intro t hact; simp [genesis, Listing.empty] at hact)

end Opt


namespace Base

/-! ### Success iff preconditions (baseline) -/

theorem mint_isOk_iff (s : MarketState) (sender : Nat) :
    okb (execOp s (Op.mint sender)) = true ↔
      sender ≠ 0 ∧ s.owners s.nextTokenIdCounter = 0 := by
  simp only [execOp]
  unfold mintNFT
  split_ifs <;> simp_all [okb]

theorem withdraw_isOk_iff (s : MarketState) (a : Nat) :
    okb (execOp s (Op.withdraw a)) = true ↔
      Bal.get s.pendingWithdrawals a ≠ 0 := by
  by_cases h : Bal.get s.pendingWithdrawals a = 0
  · rw [withdraw_err s a h]; simp [okb, h]
  · rw [withdraw_ok s a h]; simp [okb, h]

theorem setFee_isOk_iff (s : MarketState) (sender f : Nat) :
    okb (execOp s (Op.setFee sender f)) = true ↔ sender = s.contractOwner := by
  simp only [execOp]
  unfold setListingFee
  split_ifs <;> simp_all [okb]

theorem cancel_isOk_iff (s : MarketState) (sender t : Nat) :
    okb (execOp s (Op.cancel sender t)) = true ↔
      ownerCheck s t sender ∧ (s.listings t).isActive = true := by
  simp only [execOp]
  unfold cancelListing
  split_ifs <;> simp_all [okb]

theorem list_isOk_iff (s : MarketState) (sender t price pay : Nat) :
    okb (execOp s (Op.list sender t price pay)) = true ↔
      (ownerCheck s t sender ∧ price ≠ 0 ∧ s.listingFee ≤ pay ∧
       (s.listings t).isActive = false) := by
  simp only [execOp]
  unfold listNFT
  split_ifs <;> simp_all [okb, Nat.not_lt]

theorem transfer_isOk_iff (s : MarketState) (sender fromA toA t : Nat) :
    okb (execOp s (Op.transfer sender fromA toA t)) = true ↔
      (toA ≠ 0 ∧ s.owners t ≠ 0 ∧ sender = s.owners t ∧ s.owners t = fromA) := by
  simp only [execOp]
  unfold directTransfer
  split_ifs <;> simp_all [okb]

theorem buy_isOk_iff (s : MarketState) (sender t pay : Nat) :
    okb (execOp s (Op.buy sender t pay)) = true ↔
      ((s.listings t).isActive = true ∧ (s.listings t).price ≤ pay ∧
       sender ≠ 0 ∧ s.owners t ≠ 0 ∧ s.owners t = (s.listings t).seller) := by
  constructor
  · intro hok
    by_cases h1 : (s.listings t).isActive
    · by_cases h2 : pay < (s.listings t).price
      · rw [buy_err_payment s sender t pay h1 h2] at hok; simp [okb] at hok
      · by_cases h3 : sender = 0 ∨ s.owners t = 0 ∨
            s.owners t ≠ (s.listings t).seller
        · rw [buy_err_transfer s sender t pay h1 (Nat.not_lt.mp h2) h3] at hok
          simp [okb] at hok
        · push_neg at h3
          exact ⟨h1, Nat.not_lt.mp h2, h3.1, h3.2.1, h3.2.2⟩
    · rw [buy_err_notListed s sender t pay (Bool.not_eq_true _ ▸ h1)] at hok
      simp [okb] at hok
  · rintro ⟨h1, h2, h3, h4, h5⟩
    rw [buy_ok s sender t pay h1 h2 h3 h4 h5]
    rfl

end Base

namespace Opt

/-! ### Success iff preconditions (optimized) -/

theorem opt_mint_isOk_iff (s : MarketState) (sender : Nat) :
    okb (execOp s (Op.mint sender)) = true ↔
      sender ≠ 0 ∧ s.owners s.nextTokenIdCounter = 0 := by
  simp only [execOp]
  unfold mintNFT
  split_ifs <;> simp_all [okb]

theorem opt_withdraw_isOk_iff (s : MarketState) (a : Nat) :
    okb (execOp s (Op.withdraw a)) = true ↔
      Bal.get s.pendingWithdrawals a ≠ 0 := by
  by_cases h : Bal.get s.pendingWithdrawals a = 0
  · rw [opt_withdraw_err s a h]; simp [okb, h]
  · rw [opt_withdraw_ok s a h]; simp [okb, h]

theorem opt_setFee_isOk_iff (s : MarketState) (sender f : Nat) :
    okb (execOp s (Op.setFee sender f)) = true ↔
      sender = s.contractOwner ∧ f ≤ uint96max := by
  simp only [execOp]
  unfold setListingFee
  split_ifs <;> simp_all [okb, Nat.not_lt]

theorem opt_cancel_isOk_iff (s : MarketState) (sender t : Nat) :
    okb (execOp s (Op.cancel sender t)) = true ↔
      ownerCheck s t sender ∧ (s.listings t).price ≠ 0 := by
  simp only [execOp]
  unfold cancelListing
  split_ifs <;> simp_all [okb]

theorem opt_list_isOk_iff (s : MarketState) (sender t price pay : Nat) :
    okb (execOp s (Op.list sender t price pay)) = true ↔
      (price ≠ 0 ∧ price ≤ uint96max ∧ s.listingFee ≤ pay ∧
       ownerCheck s t sender ∧ (s.listings t).price = 0) := by
  simp only [execOp]
  unfold listNFT
  split_ifs <;> simp_all [okb, Nat.not_lt]

theorem opt_transfer_isOk_iff (s : MarketState) (sender fromA toA t : Nat) :
    okb (execOp s (Op.transfer sender fromA toA t)) = true ↔
      (toA ≠ 0 ∧ s.owners t ≠ 0 ∧ sender = s.owners t ∧ s.owners t = fromA) := by
  simp only [execOp]
  unfold directTransfer
  split_ifs <;> simp_all [okb]

theorem opt_buy_isOk_iff (s : MarketState) (sender t pay : Nat) :
    okb (execOp s (Op.buy sender t pay)) = true ↔
      ((s.listings t).price ≠ 0 ∧ (s.listings t).price ≤ pay ∧
       sender ≠ 0 ∧ s.owners t ≠ 0 ∧ s.owners t = (s.listings t).seller) := by
  constructor
  · intro hok
    by_cases h1 : (s.listings t).price = 0
    · rw [opt_buy_err_notListed s sender t pay h1] at hok; simp [okb] at hok
    · by_cases h2 : pay < (s.listings t).price
      · rw [opt_buy_err_payment s sender t pay h1 h2] at hok; simp [okb] at hok
      · by_cases h3 : sender = 0 ∨ s.owners t = 0 ∨
            s.owners t ≠ (s.listings t).seller
        · rw [opt_buy_err_transfer s sender t pay h1 (Nat.not_lt.mp h2) h3] at hok
          simp [okb] at hok
        · push_neg at h3
          exact ⟨h1, Nat.not_lt.mp h2, h3.1, h3.2.1, h3.2.2⟩
  · rintro ⟨h1, h2, h3, h4, h5⟩
    rw [opt_buy_ok s sender t pay h1 h2 h3 h4 h5]
    rfl

end Opt

/-- Hypothesis of the refinement claim: every price and fee supplied by
the call fits the optimized variant's `uint96` bound. -/
def FitsBound : Op → Prop
  | .list _ _ price _ => price ≤ Opt.uint96max
  | .setFee _ f => f ≤ Opt.uint96max
  | _ => True

instance (op : Op) : Decidable (FitsBound op) := by
  cases op <;> (unfold FitsBound; infer_instance)

namespace Base

/-- Events emitted by one call (none if it reverted). -/
def eventsOf (r : Except Err (List Action)) : List Event :=
  match r with
  | .ok tr => tr.filterMap (fun a => match a with | .emit e => some e | _ => none)
  | .error _ => []

/-- Run a call sequence, recording per-call success and all events. -/
def runOut (s : MarketState) : List Op → MarketState × (List Bool × List Event)
  | [] => (s, ([], []))
  | op :: ops =>
      let rest := runOut (exec s op).1 ops
      (rest.1, (okb (execOp s op) :: rest.2.1, eventsOf (execOp s op) ++ rest.2.2))

end Base

namespace Opt

/-- Events emitted by one call (none if it reverted). -/
def eventsOf (r : Except Err (List Action)) : List Event :=
  match r with
  | .ok tr => tr.filterMap (fun a => match a with | .emit e => some e | _ => none)
  | .error _ => []

/-- Run a call sequence, recording per-call success and all events. -/
def runOut (s : MarketState) : List Op → MarketState × (List Bool × List Event)
  | [] => (s, ([], []))
  | op :: ops =>
      let rest := runOut (exec s op).1 ops
      (rest.1, (okb (execOp s op) :: rest.2.1, eventsOf (execOp s op) ++ rest.2.2))

end Opt

/-- Correspondence between a baseline state and an optimized state: all
scalar storage agrees, escrow ledgers agree, and the listing maps agree
up to representation — an active baseline listing corresponds to an
optimized listing with the same (positive, `uint96`-sized) price and
seller, an inactive one to a deleted (`price = 0`) optimized listing. -/
def rel (b : Base.MarketState) (o : Opt.MarketState) : Prop :=
  b.pendingWithdrawals = o.pendingWithdrawals ∧
  b.listingFee = o.listingFee ∧
  b.owners = o.owners ∧
  b.nextTokenIdCounter = o.nextTokenIdCounter ∧
  b.contractOwner = o.contractOwner ∧
  ∀ t, ((b.listings t).isActive = true →
          (o.listings t).price = (b.listings t).price ∧
          (o.listings t).seller = (b.listings t).seller ∧
          (b.listings t).price ≠ 0 ∧ (b.listings t).price ≤ Opt.uint96max)
     ∧ ((b.listings t).isActive = false → (o.listings t).price = 0)

theorem bool_eq_of_iff {a b : Bool} (h : (a = true) ↔ (b = true)) : a = b := by
  cases a <;> cases b <;> simp_all

/-- On corresponding states, a call within the `uint96` bound succeeds in
the baseline contract iff it succeeds in the optimized contract. -/
theorem sim_okb (b : Base.MarketState) (o : Opt.MarketState) (op : Op)
    (hrel : rel b o) (hfit : FitsBound op) :
    okb (Base.execOp b op) = okb (Opt.execOp o op) := by
  obtain ⟨hw, hfee, hown, hctr, hco, hl⟩ := hrel
  have hownchk : ∀ t a, Base.ownerCheck b t a ↔ Opt.ownerCheck o t a := by
    intro t a; simp [Base.ownerCheck, Opt.ownerCheck, hown]
  have hact : ∀ t, (b.listings t).isActive = true ↔ (o.listings t).price ≠ 0 := by
    intro t
    constructor
    · intro h
      obtain ⟨hp, _, hnz, _⟩ := (hl t).1 h
      rw [hp]; exact hnz
    · intro h
      by_contra hc
      have hfalse : (b.listings t).isActive = false := by
        revert hc; cases (b.listings t).isActive <;> simp
      exact h ((hl t).2 hfalse)
  apply bool_eq_of_iff
  cases op with
  | mint sender =>
      rw [Base.mint_isOk_iff, Opt.opt_mint_isOk_iff, hown, hctr]
  | list sender t price pay =>
      rw [Base.list_isOk_iff, Opt.opt_list_isOk_iff]
      have hb : price ≤ Opt.uint96max := hfit
      constructor
      · rintro ⟨h1, h2, h3, h4⟩
        exact ⟨h2, hb, hfee ▸ h3, (hownchk t sender).mp h1, (hl t).2 h4⟩
      · rintro ⟨h1, _, h3, h4, h5⟩
        have hInact : (b.listings t).isActive = false := by
          by_contra hc
          have : (b.listings t).isActive = true := by
            revert hc; cases (b.listings t).isActive <;> simp
          exact ((hact t).mp this) h5
        exact ⟨(hownchk t sender).mpr h4, h1, hfee ▸ h3, hInact⟩
  | buy sender t pay =>
      rw [Base.buy_isOk_iff, Opt.opt_buy_isOk_iff]
      constructor
      · rintro ⟨h1, h2, h3, h4, h5⟩
        obtain ⟨hp, hsel, _, _⟩ := (hl t).1 h1
        exact ⟨(hact t).mp h1, hp ▸ h2, h3, hown ▸ h4, by rw [← hown, hsel, h5]⟩
      · rintro ⟨h1, h2, h3, h4, h5⟩
        have hAct : (b.listings t).isActive = true := (hact t).mpr h1
        obtain ⟨hp, hsel, _, _⟩ := (hl t).1 hAct
        refine ⟨hAct, ?_, h3, hown ▸ h4, ?_⟩
        · rw [← hp]; exact h2
        · rw [hown]; rw [h5, hsel]
  | cancel sender t =>
      rw [Base.cancel_isOk_iff, Opt.opt_cancel_isOk_iff]
      constructor
      · rintro ⟨h1, h2⟩
        exact ⟨(hownchk t sender).mp h1, (hact t).mp h2⟩
      · rintro ⟨h1, h2⟩
        exact ⟨(hownchk t sender).mpr h1, (hact t).mpr h2⟩
  | withdraw a =>
      rw [Base.withdraw_isOk_iff, Opt.opt_withdraw_isOk_iff, hw]
  | setFee sender f =>
      rw [Base.setFee_isOk_iff, Opt.opt_setFee_isOk_iff, hco]
      have hb : f ≤ Opt.uint96max := hfit
      tauto
  | transfer sender fromA toA t =>
      rw [Base.transfer_isOk_iff, Opt.opt_transfer_isOk_iff, hown]


/-- One-call bisimulation: on corresponding states, a call within the
`uint96` bound has the same success/failure outcome in the two variants,
emits the same events, and leads to corresponding states again. -/
theorem sim_step (b : Base.MarketState) (o : Opt.MarketState) (op : Op)
    (hrel : rel b o) (hfit : FitsBound op) :
    okb (Base.execOp b op) = okb (Opt.execOp o op) ∧
    Base.eventsOf (Base.execOp b op) = Opt.eventsOf (Opt.execOp o op) ∧
    rel (Base.exec b op).1 (Opt.exec o op).1 := by
  have hok := sim_okb b o op hrel hfit
  refine ⟨hok, ?_⟩
  cases hokv : okb (Base.execOp b op) with
  | false =>
      have hoko : okb (Opt.execOp o op) = false := hok ▸ hokv
      obtain ⟨e1, he1⟩ := okb_err hokv
      obtain ⟨e2, he2⟩ := okb_err hoko
      refine ⟨by simp [Base.eventsOf, Opt.eventsOf, he1, he2], ?_⟩
      rw [show (Base.exec b op).1 = b from by rw [Base.exec_of_err he1],
          show (Opt.exec o op).1 = o from by rw [Opt.opt_exec_of_err he2]]
      exact hrel
  | true =>
      obtain ⟨hw, hfee, hown, hctr, hco, hl⟩ := hrel
      cases op with
      | mint sender =>
          obtain ⟨hs, hf⟩ := (Base.mint_isOk_iff b sender).mp hokv
          have hfo : o.owners o.nextTokenIdCounter = 0 := by
            rw [← hown, ← hctr]; exact hf
          refine ⟨?_, ?_⟩
          · rw [Base.mint_ok b sender hs hf, Opt.opt_mint_ok o sender hs hfo]
            simp [Base.eventsOf, Opt.eventsOf]
          · rw [Base.mint_post b sender hs hf, Opt.opt_mint_post o sender hs hfo]
            exact ⟨hw, hfee, by rw [hown, hctr], by rw [hctr], hco, hl⟩
      | list sender t price pay =>
          obtain ⟨h1, h2, h3, h4⟩ :=
            (Base.list_isOk_iff b sender t price pay).mp hokv
          have hb : price ≤ Opt.uint96max := hfit
          have hoc : Opt.ownerCheck o t sender :=
            ⟨by rw [← hown]; exact h1.1, by rw [← hown]; exact h1.2⟩
          have ha0 : (o.listings t).price = 0 := (hl t).2 h4
          have h3o : o.listingFee ≤ pay := hfee ▸ h3
          refine ⟨?_, ?_⟩
          · rw [Base.list_ok b sender t price pay h1 h2 h3 h4,
              Opt.opt_list_ok o sender t price pay h2 hb h3o hoc ha0]
            by_cases hr : o.listingFee < pay <;>
              simp [Base.eventsOf, Opt.eventsOf, hfee, hr]
          · rw [Base.list_post b sender t price pay h1 h2 h3 h4,
              Opt.opt_list_post o sender t price pay h2 hb h3o hoc ha0]
            refine ⟨hw, hfee, hown, hctr, hco, ?_⟩
            intro t2
            by_cases ht : t2 = t
            · subst ht
              constructor
              · intro _
                simp [setMap]
                exact ⟨h2, hb⟩
              · intro hfalse
                simp [setMap] at hfalse
            · constructor
              · intro hac
                simp [setMap, ht] at hac ⊢
                exact (hl t2).1 hac
              · intro hac
                simp [setMap, ht] at hac ⊢
                exact (hl t2).2 hac
      | buy sender t pay =>
          obtain ⟨h1, h2, h3, h4, h5⟩ :=
            (Base.buy_isOk_iff b sender t pay).mp hokv
          obtain ⟨hp, hsel, hnz, hbd⟩ := (hl t).1 h1
          have ho1 : (o.listings t).price ≠ 0 := by rw [hp]; exact hnz
          have ho2 : (o.listings t).price ≤ pay := by rw [hp]; exact h2
          have ho4 : o.owners t ≠ 0 := by rw [← hown]; exact h4
          have ho5 : o.owners t = (o.listings t).seller := by
            rw [← hown, h5, ← hsel]
          refine ⟨?_, ?_⟩
          · rw [Base.buy_ok b sender t pay h1 h2 h3 h4 h5,
              Opt.opt_buy_ok o sender t pay ho1 ho2 h3 ho4 ho5]
            by_cases hr : (b.listings t).price < pay <;>
              simp [Base.eventsOf, Opt.eventsOf, hp, hsel, hr]
          · rw [Base.buy_post b sender t pay h1 h2 h3 h4 h5,
              Opt.opt_buy_post o sender t pay ho1 ho2 h3 ho4 ho5]
            refine ⟨by rw [hw, hsel, hp], hfee, by rw [hown], hctr, hco, ?_⟩
            intro t2
            by_cases ht : t2 = t
            · subst ht
              constructor
              · intro hac
                simp [setMap] at hac
              · intro _
                simp [setMap, Opt.Listing.empty]
            · constructor
              · intro hac
                simp [setMap, ht] at hac ⊢
                exact (hl t2).1 hac
              · intro hac
                simp [setMap, ht] at hac ⊢
                exact (hl t2).2 hac
      | cancel sender t =>
          obtain ⟨h1, h2⟩ := (Base.cancel_isOk_iff b sender t).mp hokv
          have hoc : Opt.ownerCheck o t sender :=
            ⟨by rw [← hown]; exact h1.1, by rw [← hown]; exact h1.2⟩
          have ho2 : (o.listings t).price ≠ 0 := by
            obtain ⟨hp, _, hnz, _⟩ := (hl t).1 h2
            rw [hp]; exact hnz
          refine ⟨?_, ?_⟩
          · rw [Base.cancel_ok b sender t h1 h2, Opt.opt_cancel_ok o sender t hoc ho2]
            simp [Base.eventsOf, Opt.eventsOf]
          · rw [Base.cancel_post b sender t h1 h2,
              Opt.opt_cancel_post o sender t hoc ho2]
            refine ⟨hw, hfee, hown, hctr, hco, ?_⟩
            intro t2
            by_cases ht : t2 = t
            · subst ht
              constructor
              · intro hac
                simp [setMap] at hac
              · intro _
                simp [setMap, Opt.Listing.empty]
            · constructor
              · intro hac
                simp [setMap, ht] at hac ⊢
                exact (hl t2).1 hac
              · intro hac
                simp [setMap, ht] at hac ⊢
                exact (hl t2).2 hac
      | withdraw a =>
          have h1 := (Base.withdraw_isOk_iff b a).mp hokv
          have h1o : Bal.get o.pendingWithdrawals a ≠ 0 := by
            rw [← hw]; exact h1
          refine ⟨?_, ?_⟩
          · rw [Base.withdraw_ok b a h1, Opt.opt_withdraw_ok o a h1o]
            simp [Base.eventsOf, Opt.eventsOf]
          · rw [Base.withdraw_post b a h1, Opt.opt_withdraw_post o a h1o]
            exact ⟨by rw [hw], hfee, hown, hctr, hco, hl⟩
      | setFee sender f =>
          have h1 := (Base.setFee_isOk_iff b sender f).mp hokv
          have hb : f ≤ Opt.uint96max := hfit
          have h1o : sender = o.contractOwner := by rw [← hco]; exact h1
          refine ⟨?_, ?_⟩
          · rw [Base.setFee_ok b sender f h1, Opt.opt_setFee_ok o sender f h1o hb]
            simp [Base.eventsOf, Opt.eventsOf]
          · rw [Base.setFee_post b sender f h1, Opt.opt_setFee_post o sender f h1o hb]
            exact ⟨hw, rfl, hown, hctr, hco, hl⟩
      | transfer sender fromA toA t =>
          obtain ⟨hto, hex, hauth, hfrom⟩ :=
            (Base.transfer_isOk_iff b sender fromA toA t).mp hokv
          have hexo : o.owners t ≠ 0 := by rw [← hown]; exact hex
          have hautho : sender = o.owners t := by rw [← hown]; exact hauth
          have hfromo : o.owners t = fromA := by rw [← hown]; exact hfrom
          by_cases hactb : (b.listings t).isActive
          · obtain ⟨hp, _, hnz, _⟩ := (hl t).1 hactb
            have hacto : (o.listings t).price ≠ 0 := by rw [hp]; exact hnz
            refine ⟨?_, ?_⟩
            · rw [Base.transfer_ok_active b sender fromA toA t hto hex hauth
                  hfrom hactb,
                Opt.opt_transfer_ok_active o sender fromA toA t hto hexo hautho
                  hfromo hacto]
              simp [Base.eventsOf, Opt.eventsOf]
            · rw [Base.transfer_post_active b sender fromA toA t hto hex hauth
                  hfrom hactb,
                Opt.opt_transfer_post_active o sender fromA toA t hto hexo hautho
                  hfromo hacto]
              refine ⟨hw, hfee, by rw [hown], hctr, hco, ?_⟩
              intro t2
              by_cases ht : t2 = t
              · subst ht
                constructor
                · intro hac
                  simp [setMap] at hac
                · intro _
                  simp [setMap, Opt.Listing.empty]
              · constructor
                · intro hac
                  simp [setMap, ht] at hac ⊢
                  exact (hl t2).1 hac
                · intro hac
                  simp [setMap, ht] at hac ⊢
                  exact (hl t2).2 hac
          · have hactb2 : (b.listings t).isActive = false :=
              Bool.not_eq_true _ ▸ hactb
            have hacto : (o.listings t).price = 0 := (hl t).2 hactb2
            refine ⟨?_, ?_⟩
            · rw [Base.transfer_ok_inactive b sender fromA toA t hto hex hauth
                  hfrom hactb2,
                Opt.opt_transfer_ok_inactive o sender fromA toA t hto hexo hautho
                  hfromo hacto]
              simp [Base.eventsOf, Opt.eventsOf]
            · rw [Base.transfer_post_inactive b sender fromA toA t hto hex hauth
                  hfrom hactb2,
                Opt.opt_transfer_post_inactive o sender fromA toA t hto hexo hautho
                  hfromo hacto]
              exact ⟨hw, hfee, by rw [hown], hctr, hco, hl⟩

/-- Deployment states of the two variants correspond. -/
theorem rel_genesis (deployer : Nat) :
    rel (Base.genesis deployer) (Opt.genesis deployer) := by
  refine ⟨rfl, rfl, rfl, rfl, rfl, ?_⟩
  intro t
  constructor
  · intro h
    simp [Base.genesis, Base.Listing.empty] at h
  · intro _
    rfl

/-- Whole-run bisimulation: same per-call outcomes, same event stream,
corresponding final states. -/
theorem sim_runOut (ops : List Op) : ∀ (b : Base.MarketState) (o : Opt.MarketState),
    rel b o → (∀ op ∈ ops, FitsBound op) →
    (Base.runOut b ops).2 = (Opt.runOut o ops).2 ∧
    rel (Base.runOut b ops).1 (Opt.runOut o ops).1 := by
  induction ops with
  | nil =>
      intro b o hrel _
      exact ⟨rfl, hrel⟩
  | cons op rest ih =>
      intro b o hrel hfit
      obtain ⟨hok, hev, hrel2⟩ := sim_step b o op hrel (hfit op (by simp))
      obtain ⟨hout, hrel3⟩ := ih (Base.exec b op).1 (Opt.exec o op).1 hrel2
        (fun o2 ho2 => hfit o2 (by simp [ho2]))
      refine ⟨?_, ?_⟩
      · simp only [Base.runOut, Opt.runOut]
        rw [hok, hev, hout]
      · simp only [Base.runOut, Opt.runOut]
        exact hrel3

namespace Base

/-- During a successful `buyNFT`, the very first effect removes the
listing, and no later effect of the same call restores it: at every
intermediate point of the call after that first write — in particular at
the external refund transfer, the only point where re-entry is possible —
token `t`'s listing is already inactive. -/
theorem buy_trace_take (s : MarketState) (sender t pay : Nat)
    (tr : List Action) (h : execOp s (Op.buy sender t pay) = .ok tr)
    (k : Nat) (hk : 1 ≤ k) :
    ((applyTrace s (tr.take k)).listings t).isActive = false := by
  have hokv : okb (execOp s (Op.buy sender t pay)) = true := by rw [h]; rfl
  obtain ⟨h1, h2, h3, h4, h5⟩ := (buy_isOk_iff s sender t pay).mp hokv
  have htr := buy_ok s sender t pay h1 h2 h3 h4 h5
  rw [h] at htr
  have htr2 := Except.ok.inj htr
  obtain ⟨j, rfl⟩ : ∃ j, k = j + 1 := ⟨k - 1, by omega⟩
  subst htr2
  by_cases hr : (s.listings t).price < pay
  · simp only [hr, if_pos]
    rw [show ([Action.setListing t
          ⟨(s.listings t).price, (s.listings t).seller, false⟩,
        Action.setOwner t sender,
        Action.setEscrow (s.listings t).seller
          (Bal.get s.pendingWithdrawals (s.listings t).seller
            + (s.listings t).price)]
       ++ [Action.send sender (pay - (s.listings t).price)]
       ++ [Action.emit (.NFTSold t sender (s.listings t).seller
             (s.listings t).price)])
      = Action.setListing t
          ⟨(s.listings t).price, (s.listings t).seller, false⟩ ::
        ([Action.setOwner t sender,
          Action.setEscrow (s.listings t).seller
            (Bal.get s.pendingWithdrawals (s.listings t).seller
              + (s.listings t).price),
          Action.send sender (pay - (s.listings t).price),
          Action.emit (.NFTSold t sender (s.listings t).seller
            (s.listings t).price)]) from by simp]
    rw [List.take_succ_cons]
    show ((applyTrace (applyAction s _) _).listings t).isActive = false
    rw [listings_stable t _ _ ?hmem]
    · simp [applyAction, setMap_same]
    · intro a ha li
      have hsub := List.take_subset j _ ha
      simp only [List.mem_cons, List.not_mem_nil, or_false] at hsub
      rcases hsub with h0 | h0 | h0 | h0 <;> subst h0 <;> simp
  · simp only [hr, if_neg, not_false_iff]
    rw [show ([Action.setListing t
          ⟨(s.listings t).price, (s.listings t).seller, false⟩,
        Action.setOwner t sender,
        Action.setEscrow (s.listings t).seller
          (Bal.get s.pendingWithdrawals (s.listings t).seller
            + (s.listings t).price)]
       ++ ([] : List Action)
       ++ [Action.emit (.NFTSold t sender (s.listings t).seller
             (s.listings t).price)])
      = Action.setListing t
          ⟨(s.listings t).price, (s.listings t).seller, false⟩ ::
        ([Action.setOwner t sender,
          Action.setEscrow (s.listings t).seller
            (Bal.get s.pendingWithdrawals (s.listings t).seller
              + (s.listings t).price),
          Action.emit (.NFTSold t sender (s.listings t).seller
            (s.listings t).price)]) from by simp]
    rw [List.take_succ_cons]
    show ((applyTrace (applyAction s _) _).listings t).isActive = false
    rw [listings_stable t _ _ ?hmem2]
    · simp [applyAction, setMap_same]
    · intro a ha li
      have hsub := List.take_subset j _ ha
      simp only [List.mem_cons, List.not_mem_nil, or_false] at hsub
      rcases hsub with h0 | h0 | h0 <;> subst h0 <;> simp

end Base

namespace Opt

/-- Actions that never write the listing slot `t` leave it unchanged. -/
theorem opt_listings_stable (t : Nat) :
    ∀ (l : List Action) (s : MarketState),
      (∀ a ∈ l, ∀ li, a ≠ Action.setListing t li) →
      (applyTrace s l).listings t = s.listings t := by
  intro l
  induction l with
  | nil => intro s _; rfl
  | cons a rest ih =>
      intro s h
      have ha := h a (by simp)
      have hrest : ∀ b ∈ rest, ∀ li, b ≠ Action.setListing t li := by
        intro b hb; exact h b (by simp [hb])
      show (applyTrace (applyAction s a) rest).listings t = s.listings t
      rw [ih (applyAction s a) hrest]
      cases a with
      | setListing t2 li =>
          have ht : t2 ≠ t := fun hc => ha li (by rw [hc])
          simp [applyAction, setMap, Ne.symm ht]
      | setOwner t2 o => simp [applyAction]
      | setEscrow a2 v => simp [applyAction]
      | setFeeVal f => simp [applyAction]
      | bumpCounter => simp [applyAction]
      | send d v => simp [applyAction]
      | emit e => simp [applyAction]

/-- During a successful optimized `buyNFT`, the very first effect deletes
the listing, and at every later intermediate point of the call — in
particular at the external refund transfer — token `t`'s listing slot
still reads `price = 0`. -/
theorem opt_buy_trace_take (s : MarketState) (sender t pay : Nat)
    (tr : List Action) (h : execOp s (Op.buy sender t pay) = .ok tr)
    (k : Nat) (hk : 1 ≤ k) :
    ((applyTrace s (tr.take k)).listings t).price = 0 := by
  have hokv : okb (execOp s (Op.buy sender t pay)) = true := by rw [h]; rfl
  obtain ⟨h1, h2, h3, h4, h5⟩ := (opt_buy_isOk_iff s sender t pay).mp hokv
  have htr := opt_buy_ok s sender t pay h1 h2 h3 h4 h5
  rw [h] at htr
  have htr2 := Except.ok.inj htr
  obtain ⟨j, rfl⟩ : ∃ j, k = j + 1 := ⟨k - 1, by omega⟩
  subst htr2
  by_cases hr : (s.listings t).price < pay
  · simp only [hr, if_pos]
    rw [show ([Action.setListing t Listing.empty,
        Action.setOwner t sender,
        Action.setEscrow (s.listings t).seller
          (Bal.get s.pendingWithdrawals (s.listings t).seller
            + (s.listings t).price)]
       ++ [Action.send sender (pay - (s.listings t).price)]
       ++ [Action.emit (.NFTSold t sender (s.listings t).seller
             (s.listings t).price)])
      = Action.setListing t Listing.empty ::
        ([Action.setOwner t sender,
          Action.setEscrow (s.listings t).seller
            (Bal.get s.pendingWithdrawals (s.listings t).seller
              + (s.listings t).price),
          Action.send sender (pay - (s.listings t).price),
          Action.emit (.NFTSold t sender (s.listings t).seller
            (s.listings t).price)]) from by simp]
    rw [List.take_succ_cons]
    show ((applyTrace (applyAction s _) _).listings t).price = 0
    rw [opt_listings_stable t _ _ ?hmem]
    · simp [applyAction, setMap_same, Listing.empty]
    · intro a ha li
      have hsub := List.take_subset j _ ha
      simp only [List.mem_cons, List.not_mem_nil, or_false] at hsub
      rcases hsub with h0 | h0 | h0 | h0 <;> subst h0 <;> simp
  · simp only [hr, if_neg, not_false_iff]
    rw [show ([Action.setListing t Listing.empty,
        Action.setOwner t sender,
        Action.setEscrow (s.listings t).seller
          (Bal.get s.pendingWithdrawals (s.listings t).seller
            + (s.listings t).price)]
       ++ ([] : List Action)
       ++ [Action.emit (.NFTSold t sender (s.listings t).seller
             (s.listings t).price)])
      = Action.setListing t Listing.empty ::
        ([Action.setOwner t sender,
          Action.setEscrow (s.listings t).seller
            (Bal.get s.pendingWithdrawals (s.listings t).seller
              + (s.listings t).price),
          Action.emit (.NFTSold t sender (s.listings t).seller
            (s.listings t).price)]) from by simp]
    rw [List.take_succ_cons]
    show ((applyTrace (applyAction s _) _).listings t).price = 0
    rw [opt_listings_stable t _ _ ?hmem2]
    · simp [applyAction, setMap_same, Listing.empty]
    · intro a ha li
      have hsub := List.take_subset j _ ha
      simp only [List.mem_cons, List.not_mem_nil, or_false] at hsub
      rcases hsub with h0 | h0 | h0 <;> subst h0 <;> simp

end Opt

/-! ### Concrete scenario states (deployer `1`, minter/seller `2`,
buyer `3`; the listing fee is the deployed `0.01 ether`) -/

def bMinted : Base.MarketState := (Base.exec (Base.genesis 1) (Op.mint 2)).1

def oMinted : Opt.MarketState := (Opt.exec (Opt.genesis 1) (Op.mint 2)).1

def bListed : Base.MarketState :=
  (Base.exec bMinted (Op.list 2 0 5 10000000000000000)).1

def oListed : Opt.MarketState :=
  (Opt.exec oMinted (Op.list 2 0 5 10000000000000000)).1

/-- An (unreachable) state in which token 0 has an active listing whose
seller no longer owns it — used to exhibit the registry rejecting a
transfer mid-`buy`. -/
def bBad : Base.MarketState := { bListed with owners := setMap bListed.owners 0 7 }

def oBad : Opt.MarketState := { oListed with owners := setMap oListed.owners 0 7 }

/-- C2: every operation of either variant that terminates with an error
leaves the entire state exactly as it was before the call (EVM revert
semantics: an error discards the whole effect trace); in particular a
`buyNFT` in which the ownership registry rejects the transfer (here:
the listed seller no longer owns the token) aborts with
`TransferFailed` and no state mutated. -/
theorem claim_C2_atomicity :
    (∀ (s : Base.MarketState) (op : Op) (e : Err),
      (Base.exec s op).2 = .error e → (Base.exec s op).1 = s)
    ∧ (∀ (o : Opt.MarketState) (op : Op) (e : Err),
      (Opt.exec o op).2 = .error e → (Opt.exec o op).1 = o)
    ∧ (∀ (s : Base.MarketState) (sender t pay : Nat),
      (s.listings t).isActive = true → (s.listings t).price ≤ pay →
      s.owners t ≠ (s.listings t).seller →
      Base.exec s (Op.buy sender t pay) = (s, .error .TransferFailed))
    ∧ (∀ (o : Opt.MarketState) (sender t pay : Nat),
      (o.listings t).price ≠ 0 → (o.listings t).price ≤ pay →
      o.owners t ≠ (o.listings t).seller →
      Opt.exec o (Op.buy sender t pay) = (o, .error .TransferFailed)) := by
  refine ⟨?_, ?_, ?_, ?_⟩
  · intro s op e h
    exact Base.exec_err_state h
  · intro o op e h
    exact Opt.opt_exec_err_state h
  · intro s sender t pay h1 h2 h3
    exact Base.exec_of_err
      (Base.buy_err_transfer s sender t pay h1 h2 (Or.inr (Or.inr h3)))
  · intro o sender t pay h1 h2 h3
    exact Opt.opt_exec_of_err
      (Opt.opt_buy_err_transfer o sender t pay h1 h2 (Or.inr (Or.inr h3)))

theorem claim_C2_witness :
    (Base.exec bListed (Op.withdraw 9)).1 = bListed ∧
    Base.exec bBad (Op.buy 3 0 5) = (bBad, .error .TransferFailed) ∧
    Opt.exec oBad (Op.buy 3 0 5) = (oBad, .error .TransferFailed) :=
  ⟨claim_C2_atomicity.1 bListed (Op.withdraw 9) .NothingToWithdraw (by rfl),
   claim_C2_atomicity.2.2.1 bBad 3 0 5 (by decide) (by decide) (by decide),
   claim_C2_atomicity.2.2.2 oBad 3 0 5 (by decide) (by decide) (by decide)⟩

/-- C3: conservation of value, baseline contract, from deployment: the
sum of all escrow balances, plus everything paid out by successful
withdrawals, plus all listing fees collected by the operator, equals all
listing prices received through successful buys plus all listing fees
paid in by successful listings.  Overpayment refunds are excluded from
both sides (they return to the caller within the same call and never
enter escrow). -/
theorem claim_C3_conservation (deployer : Nat) (ops : List Op) :
    Bal.total
        (Base.runT (Base.genesis deployer, Base.Tally.zero) ops).1.pendingWithdrawals
      + (Base.runT (Base.genesis deployer, Base.Tally.zero) ops).2.withdrawn
      + (Base.runT (Base.genesis deployer, Base.Tally.zero) ops).2.feesCollected
    = (Base.runT (Base.genesis deployer, Base.Tally.zero) ops).2.buyRevenue
      + (Base.runT (Base.genesis deployer, Base.Tally.zero) ops).2.feesPaidIn :=
  Base.conserved_runT (Base.genesis deployer, Base.Tally.zero) ops
    (by simp [Base.conserved, Base.genesis, Base.Tally.zero, Bal.total])

/-- C5: in both variants `withdrawFunds` succeeds iff the caller's escrow
balance is strictly positive; on success its effect trace zeroes the
balance strictly before the single outbound transfer, which carries
exactly the full prior balance, and the post-state balance is 0; on a
zero balance it fails with `NothingToWithdraw`, leaves the state (hence
the zero balance) untouched, and an immediately repeated call fails
identically. -/
theorem claim_C5_withdraw :
    (∀ (s : Base.MarketState) (a : Nat),
      (okb (Base.execOp s (Op.withdraw a)) = true ↔
        0 < Bal.get s.pendingWithdrawals a) ∧
      (0 < Bal.get s.pendingWithdrawals a →
        Base.execOp s (Op.withdraw a) =
          .ok [Base.Action.setEscrow a 0,
               Base.Action.send a (Bal.get s.pendingWithdrawals a)] ∧
        Bal.get (Base.exec s (Op.withdraw a)).1.pendingWithdrawals a = 0) ∧
      (Bal.get s.pendingWithdrawals a = 0 →
        Base.exec s (Op.withdraw a) = (s, .error .NothingToWithdraw) ∧
        Base.exec (Base.exec s (Op.withdraw a)).1 (Op.withdraw a)
          = (s, .error .NothingToWithdraw)))
    ∧
    (∀ (o : Opt.MarketState) (a : Nat),
      (okb (Opt.execOp o (Op.withdraw a)) = true ↔
        0 < Bal.get o.pendingWithdrawals a) ∧
      (0 < Bal.get o.pendingWithdrawals a →
        Opt.execOp o (Op.withdraw a) =
          .ok [Opt.Action.setEscrow a 0,
               Opt.Action.send a (Bal.get o.pendingWithdrawals a)] ∧
        Bal.get (Opt.exec o (Op.withdraw a)).1.pendingWithdrawals a = 0) ∧
      (Bal.get o.pendingWithdrawals a = 0 →
        Opt.exec o (Op.withdraw a) = (o, .error .NothingToWithdraw) ∧
        Opt.exec (Opt.exec o (Op.withdraw a)).1 (Op.withdraw a)
          = (o, .error .NothingToWithdraw))) := by
  constructor
  · intro s a
    refine ⟨?_, ?_, ?_⟩
    · rw [Base.withdraw_isOk_iff]
      omega
    · intro h
      have h2 : Bal.get s.pendingWithdrawals a ≠ 0 := by omega
      refine ⟨Base.withdraw_ok s a h2, ?_⟩
      rw [Base.withdraw_post s a h2]
      exact Bal.get_set_same s.pendingWithdrawals a 0
    · intro h
      have he := Base.exec_of_err (Base.withdraw_err s a h)
      refine ⟨he, ?_⟩
      rw [he]
      exact he
  · intro o a
    refine ⟨?_, ?_, ?_⟩
    · rw [Opt.opt_withdraw_isOk_iff]
      omega
    · intro h
      have h2 : Bal.get o.pendingWithdrawals a ≠ 0 := by omega
      refine ⟨Opt.opt_withdraw_ok o a h2, ?_⟩
      rw [Opt.opt_withdraw_post o a h2]
      exact Bal.get_set_same o.pendingWithdrawals a 0
    · intro h
      have he := Opt.opt_exec_of_err (Opt.opt_withdraw_err o a h)
      refine ⟨he, ?_⟩
      rw [he]
      exact he

theorem claim_C5_witness :
    (Base.execOp (Base.exec bListed (Op.buy 3 0 5)).1 (Op.withdraw 2) =
      .ok [Base.Action.setEscrow 2 0, Base.Action.send 2 5]) ∧
    (Base.exec bListed (Op.withdraw 3) = (bListed, .error .NothingToWithdraw)) :=
  ⟨((claim_C5_withdraw.1 (Base.exec bListed (Op.buy 3 0 5)).1 2).2.1 (by decide)).1,
   ((claim_C5_withdraw.1 bListed 3).2.2 (by decide)).1⟩

/-- C1: after a successful `buyNFT(tokenId)`, any second `buyNFT` of the
same token fails with `NotListed` — immediately after the call; at every
intermediate point of the call from its first effect on (in particular
re-entrantly from within the buy's only external call, the overpayment
refund, which the trace places after the listing removal); and it keeps
failing across any further calls that do not relist the token.  Both
variants. -/
theorem claim_C1_no_double_sale :
    (∀ (s : Base.MarketState) (sender t pay : Nat) (tr : List Base.Action),
      Base.execOp s (Op.buy sender t pay) = .ok tr →
      (∀ sender2 pay2,
        Base.execOp (Base.exec s (Op.buy sender t pay)).1 (Op.buy sender2 t pay2)
          = .error .NotListed) ∧
      (∀ k, 1 ≤ k → ∀ sender2 pay2,
        Base.execOp (Base.applyTrace s (tr.take k)) (Op.buy sender2 t pay2)
          = .error .NotListed) ∧
      (∀ ops, (∀ op ∈ ops, ∀ a p v, op ≠ Op.list a t p v) →
        ∀ sender2 pay2,
          Base.execOp (Base.run (Base.exec s (Op.buy sender t pay)).1 ops)
            (Op.buy sender2 t pay2) = .error .NotListed))
    ∧
    (∀ (o : Opt.MarketState) (sender t pay : Nat) (tr : List Opt.Action),
      Opt.execOp o (Op.buy sender t pay) = .ok tr →
      (∀ sender2 pay2,
        Opt.execOp (Opt.exec o (Op.buy sender t pay)).1 (Op.buy sender2 t pay2)
          = .error .NotListed) ∧
      (∀ k, 1 ≤ k → ∀ sender2 pay2,
        Opt.execOp (Opt.applyTrace o (tr.take k)) (Op.buy sender2 t pay2)
          = .error .NotListed) ∧
      (∀ ops, (∀ op ∈ ops, ∀ a p v, op ≠ Op.list a t p v) →
        ∀ sender2 pay2,
          Opt.execOp (Opt.run (Opt.exec o (Op.buy sender t pay)).1 ops)
            (Op.buy sender2 t pay2) = .error .NotListed)) := by
  constructor
  · intro s sender t pay tr h
    have hokv : okb (Base.execOp s (Op.buy sender t pay)) = true := by rw [h]; rfl
    obtain ⟨h1, h2, h3, h4, h5⟩ := (Base.buy_isOk_iff s sender t pay).mp hokv
    have hpost :
        ((Base.exec s (Op.buy sender t pay)).1.listings t).isActive = false := by
      rw [Base.buy_post s sender t pay h1 h2 h3 h4 h5]
      simp [setMap_same]
    refine ⟨?_, ?_, ?_⟩
    · intro sender2 pay2
      exact Base.buy_err_notListed _ sender2 t pay2 hpost
    · intro k hk sender2 pay2
      exact Base.buy_err_notListed _ sender2 t pay2
        (Base.buy_trace_take s sender t pay tr h k hk)
    · intro ops hops sender2 pay2
      exact Base.buy_err_notListed _ sender2 t pay2
        (Base.inactive_preserved_run t ops _ hops hpost)
  · intro o sender t pay tr h
    have hokv : okb (Opt.execOp o (Op.buy sender t pay)) = true := by rw [h]; rfl
    obtain ⟨h1, h2, h3, h4, h5⟩ := (Opt.opt_buy_isOk_iff o sender t pay).mp hokv
    have hpost :
        ((Opt.exec o (Op.buy sender t pay)).1.listings t).price = 0 := by
      rw [Opt.opt_buy_post o sender t pay h1 h2 h3 h4 h5]
      simp [setMap_same, Opt.Listing.empty]
    refine ⟨?_, ?_, ?_⟩
    · intro sender2 pay2
      exact Opt.opt_buy_err_notListed _ sender2 t pay2 hpost
    · intro k hk sender2 pay2
      exact Opt.opt_buy_err_notListed _ sender2 t pay2
        (Opt.opt_buy_trace_take o sender t pay tr h k hk)
    · intro ops hops sender2 pay2
      exact Opt.opt_buy_err_notListed _ sender2 t pay2
        (Opt.opt_inactive_preserved_run t ops _ hops hpost)

theorem claim_C1_witness :
    (Base.execOp (Base.exec bListed (Op.buy 3 0 5)).1 (Op.buy 4 0 99)
      = .error .NotListed) ∧
    (Opt.execOp (Opt.exec oListed (Op.buy 3 0 5)).1 (Op.buy 4 0 99)
      = .error .NotListed) :=
  ⟨(claim_C1_no_double_sale.1 bListed 3 0 5
      [Base.Action.setListing 0 ⟨5, 2, false⟩, Base.Action.setOwner 0 3,
       Base.Action.setEscrow 2 5, Base.Action.emit (.NFTSold 0 3 2 5)]
      (by rfl)).1 4 99,
   (claim_C1_no_double_sale.2 oListed 3 0 5
      [Opt.Action.setListing 0 ⟨0, 0⟩, Opt.Action.setOwner 0 3,
       Opt.Action.setEscrow 2 5, Opt.Action.emit (.NFTSold 0 3 2 5)]
      (by rfl)).1 4 99⟩

/-- C4: the effect trace of a successful `buyNFT` is, in this exact
order: remove the listing; then request the ownership transfer from the
registry; then credit the seller's escrow; then (only when the payment
strictly exceeds the price) the single outbound value transfer, the
refund of `payment - price` to the buyer; then the sale event.  So the
listing is removed before the ownership transfer, the escrow credit
precedes every outbound transfer, no external call precedes the
removal, and every `send` in the trace is that refund.  Both variants. -/
theorem claim_C4_buy_order :
    (∀ (s : Base.MarketState) (sender t pay : Nat) (tr : List Base.Action),
      Base.execOp s (Op.buy sender t pay) = .ok tr →
      tr = [Base.Action.setListing t
              ⟨(s.listings t).price, (s.listings t).seller, false⟩,
            Base.Action.setOwner t sender,
            Base.Action.setEscrow (s.listings t).seller
              (Bal.get s.pendingWithdrawals (s.listings t).seller
                + (s.listings t).price)]
           ++ (if (s.listings t).price < pay then
                 [Base.Action.send sender (pay - (s.listings t).price)] else [])
           ++ [Base.Action.emit
                 (.NFTSold t sender (s.listings t).seller (s.listings t).price)] ∧
      (∀ d amt, Base.Action.send d amt ∈ tr →
        d = sender ∧ amt = pay - (s.listings t).price ∧ (s.listings t).price < pay))
    ∧
    (∀ (o : Opt.MarketState) (sender t pay : Nat) (tr : List Opt.Action),
      Opt.execOp o (Op.buy sender t pay) = .ok tr →
      tr = [Opt.Action.setListing t Opt.Listing.empty,
            Opt.Action.setOwner t sender,
            Opt.Action.setEscrow (o.listings t).seller
              (Bal.get o.pendingWithdrawals (o.listings t).seller
                + (o.listings t).price)]
           ++ (if (o.listings t).price < pay then
                 [Opt.Action.send sender (pay - (o.listings t).price)] else [])
           ++ [Opt.Action.emit
                 (.NFTSold t sender (o.listings t).seller (o.listings t).price)] ∧
      (∀ d amt, Opt.Action.send d amt ∈ tr →
        d = sender ∧ amt = pay - (o.listings t).price ∧ (o.listings t).price < pay)) := by
  constructor
  · intro s sender t pay tr h
    have hokv : okb (Base.execOp s (Op.buy sender t pay)) = true := by rw [h]; rfl
    obtain ⟨h1, h2, h3, h4, h5⟩ := (Base.buy_isOk_iff s sender t pay).mp hokv
    have htr := Base.buy_ok s sender t pay h1 h2 h3 h4 h5
    rw [h] at htr
    have htr2 := Except.ok.inj htr
    refine ⟨htr2, ?_⟩
    intro d amt hmem
    rw [htr2] at hmem
    by_cases hr : (s.listings t).price < pay
    · simp [hr] at hmem
      exact ⟨hmem.1, hmem.2, hr⟩
    · simp [hr] at hmem
  · intro o sender t pay tr h
    have hokv : okb (Opt.execOp o (Op.buy sender t pay)) = true := by rw [h]; rfl
    obtain ⟨h1, h2, h3, h4, h5⟩ := (Opt.opt_buy_isOk_iff o sender t pay).mp hokv
    have htr := Opt.opt_buy_ok o sender t pay h1 h2 h3 h4 h5
    rw [h] at htr
    have htr2 := Except.ok.inj htr
    refine ⟨htr2, ?_⟩
    intro d amt hmem
    rw [htr2] at hmem
    by_cases hr : (o.listings t).price < pay
    · simp [hr] at hmem
      exact ⟨hmem.1, hmem.2, hr⟩
    · simp [hr] at hmem

theorem claim_C4_witness :
    [Base.Action.setListing 0 ⟨5, 2, false⟩, Base.Action.setOwner 0 3,
     Base.Action.setEscrow 2 5, Base.Action.send 3 2,
     Base.Action.emit (.NFTSold 0 3 2 5)]
    = [Base.Action.setListing 0
         ⟨(bListed.listings 0).price, (bListed.listings 0).seller, false⟩,
       Base.Action.setOwner 0 3,
       Base.Action.setEscrow (bListed.listings 0).seller
         (Bal.get bListed.pendingWithdrawals (bListed.listings 0).seller
           + (bListed.listings 0).price)]
      ++ (if (bListed.listings 0).price < 7 then
            [Base.Action.send 3 (7 - (bListed.listings 0).price)] else [])
      ++ [Base.Action.emit
            (.NFTSold 0 3 (bListed.listings 0).seller (bListed.listings 0).price)] :=
  (claim_C4_buy_order.1 bListed 3 0 7
    [Base.Action.setListing 0 ⟨5, 2, false⟩, Base.Action.setOwner 0 3,
     Base.Action.setEscrow 2 5, Base.Action.send 3 2,
     Base.Action.emit (.NFTSold 0 3 2 5)] (by rfl)).1

/-- C6: a direct (non-`buyNFT`) ownership transfer runs the `_update`
hook, so afterwards the token's listing is inactive (`getListing`
reports no active listing) and a subsequent `buyNFT` of that token fails
with `NotListed`; consequently, in every state reachable from
deployment, the seller of every active listing is the token's current
owner.  Both variants. -/
theorem claim_C6_hook_invalidation :
    (∀ (s : Base.MarketState) (sender fromA toA t : Nat),
      toA ≠ 0 → s.owners t ≠ 0 → sender = s.owners t → s.owners t = fromA →
      (((Base.exec s (Op.transfer sender fromA toA t)).1.listings t).isActive
          = false ∧
       ∀ sender2 pay2,
         Base.execOp (Base.exec s (Op.transfer sender fromA toA t)).1
           (Op.buy sender2 t pay2) = .error .NotListed))
    ∧
    (∀ (o : Opt.MarketState) (sender fromA toA t : Nat),
      toA ≠ 0 → o.owners t ≠ 0 → sender = o.owners t → o.owners t = fromA →
      (((Opt.exec o (Op.transfer sender fromA toA t)).1.listings t).price = 0 ∧
       ∀ sender2 pay2,
         Opt.execOp (Opt.exec o (Op.transfer sender fromA toA t)).1
           (Op.buy sender2 t pay2) = .error .NotListed))
    ∧
    (∀ (deployer : Nat) (ops : List Op) (t : Nat),
      ((Base.run (Base.genesis deployer) ops).listings t).isActive = true →
      ((Base.run (Base.genesis deployer) ops).listings t).seller
        = (Base.run (Base.genesis deployer) ops).owners t)
    ∧
    (∀ (deployer : Nat) (ops : List Op) (t : Nat),
      ((Opt.run (Opt.genesis deployer) ops).listings t).price ≠ 0 →
      ((Opt.run (Opt.genesis deployer) ops).listings t).seller
        = (Opt.run (Opt.genesis deployer) ops).owners t) := by
  refine ⟨?_, ?_, ?_, ?_⟩
  · intro s sender fromA toA t hto hex hauth hfrom
    have hpost :
        ((Base.exec s (Op.transfer sender fromA toA t)).1.listings t).isActive
          = false := by
      by_cases hact : (s.listings t).isActive
      · rw [Base.transfer_post_active s sender fromA toA t hto hex hauth hfrom hact]
        simp [setMap_same]
      · rw [Base.transfer_post_inactive s sender fromA toA t hto hex hauth hfrom
          (Bool.not_eq_true _ ▸ hact)]
        simpa using (Bool.not_eq_true _ ▸ hact)
    exact ⟨hpost, fun sender2 pay2 => Base.buy_err_notListed _ sender2 t pay2 hpost⟩
  · intro o sender fromA toA t hto hex hauth hfrom
    have hpost :
        ((Opt.exec o (Op.transfer sender fromA toA t)).1.listings t).price = 0 := by
      by_cases hact : (o.listings t).price = 0
      · rw [Opt.opt_transfer_post_inactive o sender fromA toA t hto hex hauth hfrom hact]
        exact hact
      · rw [Opt.opt_transfer_post_active o sender fromA toA t hto hex hauth hfrom hact]
        simp [setMap_same, Opt.Listing.empty]
    exact ⟨hpost, fun sender2 pay2 => Opt.opt_buy_err_notListed _ sender2 t pay2 hpost⟩
  · intro deployer ops t hact
    exact (Base.goodListings_run deployer ops t hact).2
  · intro deployer ops t hact
    exact (Opt.opt_goodListings_run deployer ops t hact).2

theorem claim_C6_witness :
    ((Base.exec bListed (Op.transfer 2 2 4 0)).1.listings 0).isActive = false ∧
    Base.execOp (Base.exec bListed (Op.transfer 2 2 4 0)).1 (Op.buy 3 0 9)
      = .error .NotListed ∧
    ((Opt.exec oListed (Op.transfer 2 2 4 0)).1.listings 0).price = 0 :=
  ⟨(claim_C6_hook_invalidation.1 bListed 2 2 4 0 (by decide) (by decide)
      (by decide) (by decide)).1,
   (claim_C6_hook_invalidation.1 bListed 2 2 4 0 (by decide) (by decide)
      (by decide) (by decide)).2 3 9,
   (claim_C6_hook_invalidation.2.1 oListed 2 2 4 0 (by decide) (by decide)
      (by decide) (by decide)).1⟩

/-- C7: `listNFT(tokenId, price)` succeeds iff the caller is the token's
current owner, the price is strictly positive (and, in the optimized
variant, within the `uint96` bound — the baseline's prices are full
`uint256` words with no further bound), at least the current listing fee
is paid, and no active listing exists; and when a single one of these
preconditions is violated the call fails with `NotOwner`,
`InvalidPrice`, `InsufficientFee`, or `AlreadyListed` respectively
(price-bound violations report `InvalidPrice`). -/
theorem claim_C7_list_preconditions :
    (∀ (s : Base.MarketState) (sender t price pay : Nat),
      (okb (Base.execOp s (Op.list sender t price pay)) = true ↔
        (Base.ownerCheck s t sender ∧ 0 < price ∧ s.listingFee ≤ pay ∧
         (s.listings t).isActive = false)) ∧
      (¬ Base.ownerCheck s t sender →
        Base.execOp s (Op.list sender t price pay) = .error .NotOwner) ∧
      (Base.ownerCheck s t sender → price = 0 →
        Base.execOp s (Op.list sender t price pay) = .error .InvalidPrice) ∧
      (Base.ownerCheck s t sender → 0 < price → pay < s.listingFee →
        Base.execOp s (Op.list sender t price pay) = .error .InsufficientFee) ∧
      (Base.ownerCheck s t sender → 0 < price → s.listingFee ≤ pay →
        (s.listings t).isActive = true →
        Base.execOp s (Op.list sender t price pay) = .error .AlreadyListed))
    ∧
    (∀ (o : Opt.MarketState) (sender t price pay : Nat),
      (okb (Opt.execOp o (Op.list sender t price pay)) = true ↔
        (Opt.ownerCheck o t sender ∧ 0 < price ∧ price ≤ Opt.uint96max ∧
         o.listingFee ≤ pay ∧ (o.listings t).price = 0)) ∧
      (price = 0 →
        Opt.execOp o (Op.list sender t price pay) = .error .InvalidPrice) ∧
      (Opt.uint96max < price →
        Opt.execOp o (Op.list sender t price pay) = .error .InvalidPrice) ∧
      (0 < price → price ≤ Opt.uint96max → pay < o.listingFee →
        Opt.execOp o (Op.list sender t price pay) = .error .InsufficientFee) ∧
      (0 < price → price ≤ Opt.uint96max → o.listingFee ≤ pay →
        ¬ Opt.ownerCheck o t sender →
        Opt.execOp o (Op.list sender t price pay) = .error .NotOwner) ∧
      (0 < price → price ≤ Opt.uint96max → o.listingFee ≤ pay →
        Opt.ownerCheck o t sender → (o.listings t).price ≠ 0 →
        Opt.execOp o (Op.list sender t price pay) = .error .AlreadyListed)) := by
  constructor
  · intro s sender t price pay
    refine ⟨?_, ?_, ?_, ?_, ?_⟩
    · rw [Base.list_isOk_iff]
      have hp : (0 < price) ↔ price ≠ 0 := Nat.pos_iff_ne_zero
      tauto
    · intro h
      exact Base.list_err_notOwner s sender t price pay h
    · intro h hp
      subst hp
      exact Base.list_err_price s sender t pay h
    · intro h hp hf
      exact Base.list_err_fee s sender t price pay h (Nat.pos_iff_ne_zero.mp hp) hf
    · intro h hp hf ha
      exact Base.list_err_listed s sender t price pay h
        (Nat.pos_iff_ne_zero.mp hp) hf ha
  · intro o sender t price pay
    refine ⟨?_, ?_, ?_, ?_, ?_, ?_⟩
    · rw [Opt.opt_list_isOk_iff]
      have hp : (0 < price) ↔ price ≠ 0 := Nat.pos_iff_ne_zero
      tauto
    · intro hp
      subst hp
      exact Opt.opt_list_err_price o sender t pay
    · intro hb
      exact Opt.list_err_high o sender t price pay hb
    · intro hp hb hf
      exact Opt.opt_list_err_fee o sender t price pay (Nat.pos_iff_ne_zero.mp hp) hb hf
    · intro hp hb hf h
      exact Opt.opt_list_err_notOwner o sender t price pay
        (Nat.pos_iff_ne_zero.mp hp) hb hf h
    · intro hp hb hf h ha
      exact Opt.opt_list_err_listed o sender t price pay
        (Nat.pos_iff_ne_zero.mp hp) hb hf h ha

theorem claim_C7_witness :
    Base.execOp bMinted (Op.list 3 0 5 10000000000000000) = .error .NotOwner ∧
    Opt.execOp oMinted (Op.list 2 0 0 10000000000000000) = .error .InvalidPrice ∧
    Base.execOp bListed (Op.list 2 0 5 10000000000000000) = .error .AlreadyListed :=
  ⟨(claim_C7_list_preconditions.1 bMinted 3 0 5 10000000000000000).2.1 (by decide),
   (claim_C7_list_preconditions.2 oMinted 2 0 0 10000000000000000).2.1 (by decide),
   (claim_C7_list_preconditions.1 bListed 2 0 5 10000000000000000).2.2.2.2
     (by decide) (by decide) (by decide) (by decide)⟩

/-- C8: `setListingFee(newFee)` succeeds iff the caller is the contract
owner (the operator) and — in the optimized variant — the fee fits
`uint96`; on success only `listingFee` changes (no listing, escrow,
ownership, or counter mutation); a non-operator caller fails with
`Unauthorized` and an over-bound fee (optimized variant; the baseline's
fees are full `uint256` words, so its bound is `2^256 - 1` and cannot be
exceeded by an argument) fails with `FeeTooHigh`, each leaving the state
untouched. -/
theorem claim_C8_setFee :
    (∀ (o : Opt.MarketState) (sender f : Nat),
      (okb (Opt.execOp o (Op.setFee sender f)) = true ↔
        sender = o.contractOwner ∧ f ≤ Opt.uint96max) ∧
      (sender = o.contractOwner → f ≤ Opt.uint96max →
        (Opt.exec o (Op.setFee sender f)).1 = { o with listingFee := f }) ∧
      (sender ≠ o.contractOwner →
        Opt.exec o (Op.setFee sender f) = (o, .error .Unauthorized)) ∧
      (sender = o.contractOwner → Opt.uint96max < f →
        Opt.exec o (Op.setFee sender f) = (o, .error .FeeTooHigh)))
    ∧
    (∀ (s : Base.MarketState) (sender f : Nat), f < 2 ^ 256 →
      ((okb (Base.execOp s (Op.setFee sender f)) = true ↔
        sender = s.contractOwner ∧ f ≤ 2 ^ 256 - 1) ∧
       (sender = s.contractOwner →
         (Base.exec s (Op.setFee sender f)).1 = { s with listingFee := f }) ∧
       (sender ≠ s.contractOwner →
         Base.exec s (Op.setFee sender f) = (s, .error .Unauthorized)))) := by
  constructor
  · intro o sender f
    refine ⟨Opt.opt_setFee_isOk_iff o sender f, ?_, ?_, ?_⟩
    · intro h hb
      exact Opt.opt_setFee_post o sender f h hb
    · intro h
      exact Opt.opt_exec_of_err (Opt.setFee_err_auth o sender f h)
    · intro h hb
      exact Opt.opt_exec_of_err (Opt.setFee_err_high o sender f h hb)
  · intro s sender f hf
    refine ⟨?_, ?_, ?_⟩
    · rw [Base.setFee_isOk_iff]
      constructor
      · intro h
        exact ⟨h, by omega⟩
      · intro h
        exact h.1
    · intro h
      exact Base.setFee_post s sender f h
    · intro h
      exact Base.exec_of_err (Base.setFee_err s sender f h)

theorem claim_C8_witness :
    (Opt.exec oMinted (Op.setFee 1 777)).1 = { oMinted with listingFee := 777 } ∧
    Opt.exec oMinted (Op.setFee 2 777) = (oMinted, .error .Unauthorized) ∧
    Opt.exec oMinted (Op.setFee 1 79228162514264337593543950336)
      = (oMinted, .error .FeeTooHigh) ∧
    (Base.exec bMinted (Op.setFee 1 777)).1 = { bMinted with listingFee := 777 } :=
  ⟨(claim_C8_setFee.1 oMinted 1 777).2.1 (by decide) (by decide),
   (claim_C8_setFee.1 oMinted 2 777).2.2.1 (by decide),
   (claim_C8_setFee.1 oMinted 1 79228162514264337593543950336).2.2.2
     (by decide) (by decide),
   (claim_C8_setFee.2 bMinted 1 777 (by norm_num)).2.1 (by decide)⟩

/-- C10: self-purchase is permitted — there is no check that the buyer
differs from the seller.  When the listing's seller (who still owns the
token) calls `buyNFT` with sufficient payment, the call succeeds, the
token stays owned by that address, the listing is removed, the seller's
own escrow balance is credited with the price, and the trace refunds any
overpayment to them.  Both variants. -/
theorem claim_C10_self_purchase :
    (∀ (s : Base.MarketState) (t pay : Nat),
      (s.listings t).isActive = true →
      (s.listings t).price ≤ pay →
      s.owners t = (s.listings t).seller →
      (s.listings t).seller ≠ 0 →
      okb (Base.execOp s (Op.buy ((s.listings t).seller) t pay)) = true ∧
      (Base.exec s (Op.buy ((s.listings t).seller) t pay)).1.owners t
        = (s.listings t).seller ∧
      ((Base.exec s (Op.buy ((s.listings t).seller) t pay)).1.listings t).isActive
        = false ∧
      Bal.get
        (Base.exec s (Op.buy ((s.listings t).seller) t pay)).1.pendingWithdrawals
        ((s.listings t).seller)
        = Bal.get s.pendingWithdrawals ((s.listings t).seller)
          + (s.listings t).price ∧
      Base.execOp s (Op.buy ((s.listings t).seller) t pay) =
        .ok ([Base.Action.setListing t
                ⟨(s.listings t).price, (s.listings t).seller, false⟩,
              Base.Action.setOwner t ((s.listings t).seller),
              Base.Action.setEscrow (s.listings t).seller
                (Bal.get s.pendingWithdrawals (s.listings t).seller
                  + (s.listings t).price)]
             ++ (if (s.listings t).price < pay then
                   [Base.Action.send ((s.listings t).seller)
                     (pay - (s.listings t).price)] else [])
             ++ [Base.Action.emit (.NFTSold t ((s.listings t).seller)
                   (s.listings t).seller (s.listings t).price)]))
    ∧
    (∀ (o : Opt.MarketState) (t pay : Nat),
      (o.listings t).price ≠ 0 →
      (o.listings t).price ≤ pay →
      o.owners t = (o.listings t).seller →
      (o.listings t).seller ≠ 0 →
      okb (Opt.execOp o (Op.buy ((o.listings t).seller) t pay)) = true ∧
      (Opt.exec o (Op.buy ((o.listings t).seller) t pay)).1.owners t
        = (o.listings t).seller ∧
      ((Opt.exec o (Op.buy ((o.listings t).seller) t pay)).1.listings t).price
        = 0 ∧
      Bal.get
        (Opt.exec o (Op.buy ((o.listings t).seller) t pay)).1.pendingWithdrawals
        ((o.listings t).seller)
        = Bal.get o.pendingWithdrawals ((o.listings t).seller)
          + (o.listings t).price) := by
  constructor
  · intro s t pay hact hpay hown hs0
    have hex : s.owners t ≠ 0 := by rw [hown]; exact hs0
    have hok := Base.buy_ok s ((s.listings t).seller) t pay hact hpay hs0 hex hown
    have hpost := Base.buy_post s ((s.listings t).seller) t pay hact hpay hs0 hex hown
    refine ⟨by rw [hok]; rfl, ?_, ?_, ?_, hok⟩
    · rw [hpost]; simp [setMap_same]
    · rw [hpost]; simp [setMap_same]
    · rw [hpost]
      exact Bal.get_set_same s.pendingWithdrawals _ _
  · intro o t pay hact hpay hown hs0
    have hex : o.owners t ≠ 0 := by rw [hown]; exact hs0
    have hok := Opt.opt_buy_ok o ((o.listings t).seller) t pay hact hpay hs0 hex hown
    have hpost := Opt.opt_buy_post o ((o.listings t).seller) t pay hact hpay hs0 hex hown
    refine ⟨by rw [hok]; rfl, ?_, ?_, ?_⟩
    · rw [hpost]; simp [setMap_same]
    · rw [hpost]; simp [setMap_same, Opt.Listing.empty]
    · rw [hpost]
      exact Bal.get_set_same o.pendingWithdrawals _ _

theorem claim_C10_witness :
    okb (Base.execOp bListed (Op.buy 2 0 9)) = true ∧
    (Base.exec bListed (Op.buy 2 0 9)).1.owners 0 = 2 ∧
    Bal.get (Base.exec bListed (Op.buy 2 0 9)).1.pendingWithdrawals 2 = 5 ∧
    okb (Opt.execOp oListed (Op.buy 2 0 9)) = true :=
  ⟨(claim_C10_self_purchase.1 bListed 0 9 (by decide) (by decide) (by decide)
      (by decide)).1,
   (claim_C10_self_purchase.1 bListed 0 9 (by decide) (by decide) (by decide)
      (by decide)).2.1,
   (claim_C10_self_purchase.1 bListed 0 9 (by decide) (by decide) (by decide)
      (by decide)).2.2.2.1,
   (claim_C10_self_purchase.2 oListed 0 9 (by decide) (by decide) (by decide)
      (by decide)).1⟩

/-- C9 counterexample: the two variants are NOT observationally
equivalent in the strong sense of "each operation succeeds or fails the
same way".  From corresponding reachable states (one token minted to
address 2) and a call whose price fits the `uint96` bound, the same
`listNFT` call — issued by a non-owner with price 0 — fails with
`NotOwner` in the baseline contract (which checks ownership first) but
with `InvalidPrice` in the optimized contract (which validates the price
first): the outcomes are both failures, but not the same failure. -/
theorem claim_C9_counterexample :
    rel bMinted oMinted ∧
    FitsBound (Op.list 3 0 0 10000000000000000) ∧
    Base.execOp bMinted (Op.list 3 0 0 10000000000000000) = .error .NotOwner ∧
    Opt.execOp oMinted (Op.list 3 0 0 10000000000000000) = .error .InvalidPrice ∧
    Err.NotOwner ≠ Err.InvalidPrice :=
  ⟨(sim_step (Base.genesis 1) (Opt.genesis 1) (Op.mint 2) (rel_genesis 1)
      trivial).2.2,
   by decide, by rfl, by rfl, by decide⟩

/-- C9 (amended): for every call sequence whose prices and fees fit the
`uint96` bound, run from deployment, the two variants are equivalent up
to the reported error: each call succeeds in one iff it succeeds in the
other, the emitted event streams coincide, and the final states agree on
token ownership, pending withdrawals, the listing fee, and listing
activity as reported by `getListing` (with equal price and seller for
every active listing).  Failing calls leave both states unchanged but
may name different violated preconditions, as the check order differs. -/
theorem claim_C9_equivalence (deployer : Nat) (ops : List Op)
    (hfit : ∀ op ∈ ops, FitsBound op) :
    (Base.runOut (Base.genesis deployer) ops).2
      = (Opt.runOut (Opt.genesis deployer) ops).2 ∧
    (Base.runOut (Base.genesis deployer) ops).1.owners
      = (Opt.runOut (Opt.genesis deployer) ops).1.owners ∧
    (Base.runOut (Base.genesis deployer) ops).1.pendingWithdrawals
      = (Opt.runOut (Opt.genesis deployer) ops).1.pendingWithdrawals ∧
    (Base.runOut (Base.genesis deployer) ops).1.listingFee
      = (Opt.runOut (Opt.genesis deployer) ops).1.listingFee ∧
    ∀ t,
      (((Base.runOut (Base.genesis deployer) ops).1.listings t).isActive = true ↔
        ((Opt.runOut (Opt.genesis deployer) ops).1.listings t).price ≠ 0) ∧
      (((Base.runOut (Base.genesis deployer) ops).1.listings t).isActive = true →
        ((Opt.runOut (Opt.genesis deployer) ops).1.listings t).price
          = ((Base.runOut (Base.genesis deployer) ops).1.listings t).price ∧
        ((Opt.runOut (Opt.genesis deployer) ops).1.listings t).seller
          = ((Base.runOut (Base.genesis deployer) ops).1.listings t).seller) := by
  obtain ⟨hout, hrel⟩ := sim_runOut ops (Base.genesis deployer)
    (Opt.genesis deployer) (rel_genesis deployer) hfit
  obtain ⟨hw, hfee, hown, hctr, hco, hl⟩ := hrel
  refine ⟨hout, hown, hw, hfee, ?_⟩
  intro t
  constructor
  · constructor
    · intro h
      obtain ⟨hp, _, hnz, _⟩ := (hl t).1 h
      rw [hp]; exact hnz
    · intro h
      by_contra hc
      have hfalse :
          ((Base.runOut (Base.genesis deployer) ops).1.listings t).isActive
            = false := by
        revert hc
        cases ((Base.runOut (Base.genesis deployer) ops).1.listings t).isActive <;>
          simp
      exact h ((hl t).2 hfalse)
  · intro h
    obtain ⟨hp, hsel, _, _⟩ := (hl t).1 h
    exact ⟨hp, hsel⟩

theorem claim_C9_witness :
    (Base.runOut (Base.genesis 1)
        [Op.mint 2, Op.list 2 0 5 10000000000000000, Op.buy 3 0 7,
         Op.withdraw 2, Op.list 3 0 0 10000000000000000]).2
      = (Opt.runOut (Opt.genesis 1)
          [Op.mint 2, Op.list 2 0 5 10000000000000000, Op.buy 3 0 7,
           Op.withdraw 2, Op.list 3 0 0 10000000000000000]).2 :=
  (claim_C9_equivalence 1
    [Op.mint 2, Op.list 2 0 5 10000000000000000, Op.buy 3 0 7,
     Op.withdraw 2, Op.list 3 0 0 10000000000000000] (by decide)).1
